import Mathlib

/-!
# Formal model of the birdmarks resumable bookmark exporter

This file gives a shallow embedding of the resumable export pipeline of the
birdmarks repository and proves the frozen specification claims about it.

Embedded sources:
* `src/exporter.ts` — `exportBookmarks` (the main page loop, its per-post loop,
  the rate-limit checkpoint discipline) and `expandQuotedTweets`;
* `src/state.ts` — `loadState`, `finishRun`, `loadErrors`, `appendError`;
* `src/thread.ts` — `expandThread` (the conversation walk and reply filter);
* `src/metadata-cache.ts` — `isFresh`, `getCachedMetadata`, `cacheMetadata`,
  `getMetadataWithCache`;
* `src/index.ts` — the `--quote-depth -1` clamp.

Modelling conventions:
* The platform client is an environment value: the bookmark pages are a list
  of pages (`ExpEnv.pages`); an opaque pagination cursor is the index of the
  next page, with `none` playing the role of JS `undefined` (falsy).
* The filesystem existence index (`bookmarkExists` / `bookmarkExistsById`,
  both of which test whether the markdown file for a tweet id is on disk) is
  a list of tweet ids `disk`; a successful write conses the id onto it.
* The whole per-post processing block of `exportBookmarks`
  (`processBookmark` = thread expansion + quote expansion + `processTweet`,
  then `writeBookmarkMarkdown`, then linked-article fetching) is abstracted
  into one outcome per tweet, `ExpEnv.process`: it either completes (`ok`),
  throws `RateLimitError` before the markdown write (`rateLimited`), throws
  `RateLimitError` after the write, during linked-article fetching
  (`okRateLimited`), or throws a non-rate-limit error (`failed`).
* Timestamps (`lastFullScanAt`, `completedAt`) and console output are not
  observable by any claim and are dropped; `saveState` is modelled by
  recording the saved state (the persisted checkpoint is threaded as
  `saved`, since `finishRun` in `state.ts` re-reads the persisted file, not
  the in-memory state).
* The run is instrumented with an event trace (`Ev`): page fetches, skips,
  per-post processing outcomes and checkpoint saves, in chronological order.
* `exportBookmarks` is modelled with `config.fetchNewFirst = false`, so the
  optional "new bookmarks first" phase (lines 356-511 of `exporter.ts`) is
  skipped, exactly as in the source when the `-N` flag is absent.
* The unbounded `while (true)` page loop is given fuel; every iteration
  either consumes a page of `ExpEnv.pages`, returns or breaks, so the fuel
  `env.pages.length + 2` supplied by `exportBookmarks` is never exhausted.
  All theorems proved below are either safety properties that hold for every
  fuel value or statements about concrete terminating runs.
-/

/-- A post as consumed by the exporter: id, author handle and the id of the
post it replies to (`inReplyToStatusId`).  Only these fields are inspected by
the embedded code paths. -/
structure Tweet where
  id : String
  author : String := ""
  replyTo : Option String := none
deriving DecidableEq, Repr

/-- Outcome of the per-post processing block (`processBookmark` + markdown
write + linked-article fetching) for one tweet. -/
inductive Outcome where
  /-- everything succeeded; the markdown file was written -/
  | ok
  /-- `RateLimitError` thrown before the markdown write -/
  | rateLimited
  /-- markdown written, then `RateLimitError` thrown while fetching linked
  articles (before `result.exported++` on line 670 of `exporter.ts`) -/
  | okRateLimited
  /-- a non-rate-limit error was thrown -/
  | failed
deriving DecidableEq, Repr

/-- The persisted exporter checkpoint (`ExporterState` of `types.ts` /
`exporter-state.json`).  `lastFullScanAt` is a timestamp and is dropped. -/
structure ExporterState where
  nextCursor : Option Nat := none
  currentPageBookmarks : Option (List Tweet) := none
  currentPage : Option Nat := none
  previousFirstExported : Option String := none
  currentRunFirstExported : Option String := none
  allBookmarksProcessed : Bool := false
deriving DecidableEq, Repr

/-- The structured run result of `exportBookmarks`. -/
structure ExportResult where
  exported : Nat := 0
  skipped : Nat := 0
  errors : Nat := 0
  hitPreviousExport : Bool := false
  rateLimited : Bool := false
deriving DecidableEq, Repr

/-- The environment of one `exportBookmarks` invocation: the client's
bookmark pages (cursor `c` fetches page `c`, `none` fetches page 0) and the
per-tweet processing outcome. -/
structure ExpEnv where
  pages : List (List Tweet)
  process : Tweet → Outcome

/-- The exporter configuration fields that steer the main loop
(`fetchNewFirst` is fixed to `false`, see the module docstring). -/
structure Config where
  maxPages : Option Nat := none
deriving DecidableEq, Repr

/-- One observable event of a run, in chronological order: a bookmark page
fetch, an existence skip, a per-post processing outcome, or a `saveState`
call persisting a checkpoint. -/
inductive Ev where
  | fetch (idx : Nat)
  | skip (id : String)
  | procOk (id : String)
  | procErr (id : String)
  | procRL (id : String)
  | save (s : ExporterState)
deriving DecidableEq, Repr

/-- How the per-post loop over one page ended. -/
inductive PExit where
  /-- the `for` loop ran off the end of the page -/
  | finishedPage
  /-- `break` with `result.hitPreviousExport = true` (boundary hit, or the
  fresh-run "first bookmark already exported" stop) -/
  | boundary
  /-- `RateLimitError`: checkpoint saved and the whole function returns -/
  | rateLimited
deriving DecidableEq, Repr

/-- Result of the per-post loop: exit kind, in-memory state, last persisted
state, disk contents, counters, and the events it emitted. -/
structure PRes where
  exit : PExit
  st : ExporterState
  saved : ExporterState
  disk : List String
  res : ExportResult
  trace : List Ev
deriving DecidableEq, Repr

/-- Lines 621-625 of `exporter.ts`: on a fresh run, before anything has been
exported or skipped, the first post of a page becomes
`currentRunFirstExported` and the state is saved immediately. -/
def anchorStep (fresh : Bool) (res : ExportResult) (i : Nat) (t : Tweet)
    (st saved : ExporterState) : ExporterState × ExporterState × List Ev :=
  if fresh = true ∧ res.exported = 0 ∧ res.skipped = 0 ∧ i = 0 then
    let st1 := { st with currentRunFirstExported := some t.id }
    (st1, st1, [Ev.save st1])
  else (st, saved, [])

/-- The per-post `for` loop of `exportBookmarks` (lines 617-699 of
`exporter.ts`), processing the posts of one page in order.  `i` is the index
of the head of the remaining list within the page, so `t :: rest` is
`bookmarksPage.slice(i)` and `rest` is `bookmarksPage.slice(i + 1)`.
`pageCursor` is the page's next cursor. -/
def processPage (env : ExpEnv) (fresh : Bool) (pageNum : Nat)
    (pageCursor : Option Nat) :
    List Tweet → Nat → ExporterState → ExporterState → List String →
    ExportResult → PRes
  | [], _, st, saved, disk, res => ⟨.finishedPage, st, saved, disk, res, []⟩
  | t :: rest, i, st, saved, disk, res =>
    let A := anchorStep fresh res i t st saved
    let st1 := A.1
    let saved1 := A.2.1
    let evs1 := A.2.2
    -- lines 627-634: previously exported boundary
    if st1.previousFirstExported = some t.id then
      ⟨.boundary, st1, saved1, disk,
        { res with hitPreviousExport := true }, evs1⟩
    -- lines 636-648: already on disk
    else if t.id ∈ disk then
      if fresh = true ∧ i = 0 ∧ pageNum = 1 then
        ⟨.boundary, st1, saved1, disk,
          { res with skipped := res.skipped + 1, hitPreviousExport := true },
          evs1 ++ [Ev.skip t.id]⟩
      else
        let r := processPage env fresh pageNum pageCursor rest (i + 1)
          st1 saved1 disk { res with skipped := res.skipped + 1 }
        { r with trace := evs1 ++ Ev.skip t.id :: r.trace }
    -- lines 650-698: process and export
    else
      match env.process t with
      | .ok =>
        let st2 := { st1 with currentPageBookmarks := some rest }
        let r := processPage env fresh pageNum pageCursor rest (i + 1)
          st2 st2 (t.id :: disk) { res with exported := res.exported + 1 }
        { r with trace := evs1 ++ Ev.procOk t.id :: Ev.save st2 :: r.trace }
      | .rateLimited =>
        let st2 := { st1 with currentPageBookmarks := some (t :: rest),
                              nextCursor := pageCursor }
        ⟨.rateLimited, st2, st2, disk, { res with rateLimited := true },
          evs1 ++ [Ev.procRL t.id, Ev.save st2]⟩
      | .okRateLimited =>
        let st2 := { st1 with currentPageBookmarks := some (t :: rest),
                              nextCursor := pageCursor }
        ⟨.rateLimited, st2, st2, t.id :: disk,
          { res with rateLimited := true },
          evs1 ++ [Ev.procRL t.id, Ev.save st2]⟩
      | .failed =>
        let r := processPage env fresh pageNum pageCursor rest (i + 1)
          st1 saved1 disk { res with errors := res.errors + 1 }
        { r with trace := evs1 ++ Ev.procErr t.id :: r.trace }

/-- `finishRun` of `state.ts` (lines 41-62): promote
`currentRunFirstExported` to `previousFirstExported` when set, clear the
pagination fields, and mark completion after a full scan.  It operates on the
persisted checkpoint (the source re-loads the state file). -/
def finishRun (s : ExporterState) (completedFullScan : Bool) : ExporterState :=
  let s1 := match s.currentRunFirstExported with
    | some a => { s with previousFirstExported := some a,
                         currentRunFirstExported := none }
    | none => s
  let s2 := { s1 with nextCursor := none, currentPageBookmarks := none,
                      currentPage := none }
  if completedFullScan then { s2 with allBookmarksProcessed := true } else s2

/-- Line 711 of `exporter.ts`: `config.maxPages && pagesFetchedThisRun >=
config.maxPages` (a `maxPages` of `0` is falsy in JS). -/
def maxPagesReached (cfg : Config) (pagesFetched : Nat) : Bool :=
  match cfg.maxPages with
  | some m => decide (0 < m ∧ m ≤ pagesFetched)
  | none => false

/-- The outcome of a whole `exportBookmarks` invocation: result record,
final persisted checkpoint, final disk contents, and the event trace. -/
structure RunOut where
  res : ExportResult
  saved : ExporterState
  disk : List String
  trace : List Ev
deriving DecidableEq, Repr

/-- Lines 598-741 of `exporter.ts`, from the "first 3 bookmarks already
exist" pre-check to the move to the next page, for one page that is in hand
(cached or freshly fetched).  `rec` continues the main loop on the next
page. -/
def pageBlock (env : ExpEnv) (cfg : Config) (fresh : Bool)
    (pageNum pagesFetched : Nat) (page : List Tweet)
    (pageCursor : Option Nat) (st0 saved : ExporterState)
    (disk : List String) (res : ExportResult)
    (rec : ExporterState → ExporterState → List String → ExportResult →
      RunOut) : RunOut :=
  -- lines 598-614: if the first min(3, length) posts all exist, stop with
  -- the cursor preserved (early return, no finishRun)
  let check := page.take 3
  if check ≠ [] ∧ ∀ t ∈ check, t.id ∈ disk then
    ⟨{ res with hitPreviousExport := true }, saved, disk, []⟩
  else
    let pp := processPage env fresh pageNum pageCursor page 0 st0 saved disk res
    if pp.exit = .rateLimited then
      -- the per-post loop already saved the checkpoint; return immediately
      ⟨pp.res, pp.saved, pp.disk, pp.trace⟩
    else if pp.res.hitPreviousExport = true then
      -- line 706-708: break out of the page loop, then finishRun
      let fin := finishRun pp.saved false
      ⟨pp.res, fin, pp.disk, pp.trace ++ [Ev.save fin]⟩
    else if maxPagesReached cfg pagesFetched then
      match pageCursor with
      | some c =>
        -- lines 712-719: save cursor state and return early (no finishRun)
        let st2 := { pp.st with nextCursor := some c,
                                currentPageBookmarks := none }
        ⟨pp.res, st2, pp.disk, pp.trace ++ [Ev.save st2]⟩
      | none =>
        -- lines 720-723: no more pages anyway: completed full scan
        let fin := finishRun pp.saved true
        ⟨pp.res, fin, pp.disk, pp.trace ++ [Ev.save fin]⟩
    else
      match pageCursor with
      | some c =>
        -- lines 728-734: advance to the next page
        let st2 := { pp.st with nextCursor := some c,
                                currentPageBookmarks := none }
        let r := rec st2 st2 pp.disk pp.res
        { r with trace := pp.trace ++ Ev.save st2 :: r.trace }
      | none =>
        -- lines 735-740: no more pages: completed full scan
        let fin := finishRun pp.saved true
        ⟨pp.res, fin, pp.disk, pp.trace ++ [Ev.save fin]⟩

/-- The `while (true)` page loop of `exportBookmarks` (lines 525-741),
with fuel bounding the number of iterations.  Each iteration resumes a
cached partial page if one is present, otherwise fetches the page at the
saved cursor (an empty page with a cursor is skipped, an empty page without
one ends the scan). -/
def mainLoop (env : ExpEnv) (cfg : Config) (fresh : Bool) :
    Nat → Nat → Nat → ExporterState → ExporterState → List String →
    ExportResult → RunOut
  | 0, _, _, _, saved, disk, res => ⟨res, saved, disk, []⟩
  | fuel + 1, pageNum, pagesFetched, st, saved, disk, res =>
    let pageNum1 := pageNum + 1
    let pagesFetched1 := pagesFetched + 1
    let st0 := { st with currentPage := some pageNum1 }
    if (st0.currentPageBookmarks.getD []).isEmpty = false then
      -- lines 535-538: resume from the cached page remainder, no fetch
      pageBlock env cfg fresh pageNum1 pagesFetched1
        (st0.currentPageBookmarks.getD []) st0.nextCursor st0 saved disk res
        (fun st2 saved2 d r =>
          mainLoop env cfg fresh fuel pageNum1 pagesFetched1 st2 saved2 d r)
    else
      -- lines 539-596: fetch the page at the saved cursor
      let idx := st0.nextCursor.getD 0
      let page := env.pages.getD idx []
      let pageCursor :=
        if idx + 1 < env.pages.length then some (idx + 1) else none
      if page.isEmpty then
        match pageCursor with
        | some c =>
          -- lines 568-575: empty page but cursor exists: save and continue
          let st1 := { st0 with nextCursor := some c }
          let r := mainLoop env cfg fresh fuel pageNum1 pagesFetched1 st1 st1
            disk res
          { r with trace := Ev.fetch idx :: Ev.save st1 :: r.trace }
        | none =>
          -- lines 576-578: true end of the list
          let fin := finishRun saved true
          ⟨res, fin, disk, [Ev.fetch idx, Ev.save fin]⟩
      else
        let r := pageBlock env cfg fresh pageNum1 pagesFetched1 page
          pageCursor st0 saved disk res
          (fun st2 saved2 d r =>
            mainLoop env cfg fresh fuel pageNum1 pagesFetched1 st2 saved2 d r)
        { r with trace := Ev.fetch idx :: r.trace }

/-- Line 352 of `exporter.ts`: a fresh run has neither a saved cursor nor a
cached page remainder. -/
def isFreshRun (s : ExporterState) : Bool :=
  s.nextCursor.isNone && s.currentPageBookmarks.isNone

/-- `exportBookmarks` (lines 330-747 of `exporter.ts`) with
`config.fetchNewFirst = false`: run the main page loop from the loaded
checkpoint `s₀` over the disk contents `disk₀`.  The fuel
`env.pages.length + 2` dominates the number of loop iterations (each one
consumes a page, returns or breaks). -/
def exportBookmarks (env : ExpEnv) (cfg : Config) (s₀ : ExporterState)
    (disk₀ : List String) : RunOut :=
  mainLoop env cfg (isFreshRun s₀) (env.pages.length + 2)
    (s₀.currentPage.getD 0) 0 s₀ s₀ disk₀ {}

/-- Ids of the posts on which per-post processing was attempted (the tweets
for which `processBookmark` was invoked), in order. -/
def processedIds : List Ev → List String
  | [] => []
  | Ev.procOk x :: tr => x :: processedIds tr
  | Ev.procErr x :: tr => x :: processedIds tr
  | Ev.procRL x :: tr => x :: processedIds tr
  | _ :: tr => processedIds tr

/-- Ids of the posts successfully exported, in order. -/
def okIds : List Ev → List String
  | [] => []
  | Ev.procOk x :: tr => x :: okIds tr
  | _ :: tr => okIds tr

/-- Ids of the posts whose processing raised a non-rate-limit error. -/
def errIds : List Ev → List String
  | [] => []
  | Ev.procErr x :: tr => x :: errIds tr
  | _ :: tr => errIds tr

/-- No page fetch occurs anywhere in the trace. -/
def fetchFree (tr : List Ev) : Prop := ∀ j, Ev.fetch j ∉ tr

/-- After any fetch of a page that contains a post with id `X`, no further
page is ever fetched. -/
def noFetchAfterX (env : ExpEnv) (X : String) : List Ev → Prop
  | [] => True
  | Ev.fetch j :: tr =>
      (X ∈ (env.pages.getD j []).map Tweet.id → fetchFree tr) ∧
      noFetchAfterX env X tr
  | _ :: tr => noFetchAfterX env X tr

/-- After any rate-limited post, no further page is ever fetched. -/
def noFetchAfterRL : List Ev → Prop
  | [] => True
  | Ev.procRL _ :: tr => fetchFree tr ∧ noFetchAfterRL tr
  | _ :: tr => noFetchAfterRL tr

/-!
## Thread expansion (`src/thread.ts`)

The conversation client is `ThreadEnv.getThread`; `none` models a failed
(non-rate-limit) query, which makes the walk break with partial results.
The unbounded `while (true)` walk is given fuel (every iteration either
extends the author continuation through a fresh `getThread` call or breaks;
the theorems below evaluate concrete terminating walks).
-/

/-- `username.toLowerCase()` as used by `expandThread`: per-character ASCII
lowercasing of the handle (agrees with `String.toLower`, but unfolds by
kernel reduction). -/
def lowerStr (s : String) : String := ⟨s.data.map Char.toLower⟩

/-- The conversation client: `client.getThread(id)`; `some tweets` is a
successful response, `none` a failed one. -/
structure ThreadEnv where
  getThread : String → Option (List Tweet)

/-- Lines 53-69 of `thread.ts`: one pass over a conversation response,
finding the author's direct reply to the current tip (the last matching
tweet wins) and, on the first call only, collecting every other tweet as a
deduplicated reply candidate. -/
def scanConv (author cur : String) (first : Bool) :
    List Tweet → Option Tweet → List Tweet → Option Tweet × List Tweet
  | [], ar, pots => (ar, pots)
  | tw :: rest, ar, pots =>
    if tw.id = cur then scanConv author cur first rest ar pots
    else if lowerStr tw.author = author ∧ tw.replyTo = some cur then
      scanConv author cur first rest (some tw) pots
    else if first = true ∧ (pots.any fun r => r.id == tw.id) = false then
      scanConv author cur first rest ar (pots ++ [tw])
    else scanConv author cur first rest ar pots

/-- The `while (true)` walk of `expandThread` (lines 31-88 of `thread.ts`):
keep querying the conversation at the current tip while the author continues
the thread; accumulate the continuation and the first call's reply
candidates. -/
def threadWalk (env : ThreadEnv) (author : String) :
    Nat → String → Bool → List Tweet → List Tweet →
    List Tweet × List Tweet
  | 0, _, _, th, pots => (th, pots)
  | fuel + 1, cur, first, th, pots =>
    match env.getThread cur with
    | none => (th, pots)
    | some tweets =>
      if tweets = [] then (th, pots)
      else
        match scanConv author cur first tweets none pots with
        | (some ar, pots1) =>
            threadWalk env author fuel ar.id false (th ++ [ar]) pots1
        | (none, pots1) => (th, pots1)

/-- `expandThread` of `src/thread.ts` (the file as it stands in the
repository).  After the walk, candidates are filtered by excluding thread
members and author replies to thread tweets (lines 95-112); note that this
filter does NOT require a candidate's reply target to lie inside the
thread. -/
def expandThread (env : ThreadEnv) (fuel : Nat) (orig : Tweet)
    (includeReplies : Bool) : List Tweet × List Tweet :=
  let author := lowerStr orig.author
  let w := threadWalk env author fuel orig.id true [] []
  let threadTweets := w.1
  if includeReplies = false then (threadTweets, [])
  else
    let tids := orig.id :: threadTweets.map Tweet.id
    let replies := w.2.filter fun tw =>
      if tids.contains tw.id then false
      else if lowerStr tw.author == author &&
          (match tw.replyTo with
           | some r => tids.contains r
           | none => false) then false
      else true
    (threadTweets, replies)

/-!
## Quote expansion (`expandQuotedTweets`, `src/exporter.ts` lines 203-245)
and the `--quote-depth -1` clamp (`src/index.ts` line 33)
-/

/-- A tweet with its (possibly nested) quoted tweet, as far as the quote
expander observes it: `leaf i` has no `quotedTweet`, `quote i q` quotes
`q`. -/
inductive QTweet where
  | leaf (id : String)
  | quote (id : String) (q : QTweet)
deriving DecidableEq, Repr

/-- The id of a `QTweet`. -/
def QTweet.id : QTweet → String
  | .leaf i => i
  | .quote i _ => i

/-- The quoted tweet of a `QTweet` (`tweet.quotedTweet`). -/
def QTweet.quoted : QTweet → Option QTweet
  | .leaf _ => none
  | .quote _ q => some q

/-- The recursion of `expandQuotedTweets` on `remainingDepth.toNat`:
`remainingDepth ≤ 1` is exactly `toNat ≤ 1`, and the recursive call with
`remainingDepth - 1` decrements `toNat` when `remainingDepth ≥ 2`.
`g q` models `client.getTweet(q)`: `some full` is a successful fetch, `none`
a failed or non-rate-limit erroring one (which falls back to the original
tweet).  On success the fetched full quoted tweet is recursively expanded
and attached. -/
def expandGo (g : String → Option QTweet) : QTweet → Nat → QTweet
  | t, 0 => t
  | t, 1 => t
  | t, n + 2 =>
    match t.quoted with
    | none => t
    | some q =>
      match g q.id with
      | some full => QTweet.quote t.id (expandGo g full (n + 1))
      | none => t

/-- `expandQuotedTweets(client, tweet, remainingDepth)`: return the tweet
unchanged if `remainingDepth ≤ 1` or it has no quoted tweet; otherwise fetch
the full quoted tweet, expand it with `remainingDepth - 1` and attach it. -/
def expandQuotedTweets (g : String → Option QTweet) (t : QTweet)
    (d : Int) : QTweet :=
  expandGo g t d.toNat

/-- Line 33 of `src/index.ts`: `quoteDepth = parsed === -1 ? 20 : parsed`
(`-1` means "unlimited", capped at 20). -/
def parseQuoteDepth (parsed : Int) : Int :=
  if parsed = -1 then 20 else parsed

/-- The `i`-th node of a quote chain (node 0 is the tweet itself). -/
def nthQuoted : QTweet → Nat → Option QTweet
  | t, 0 => some t
  | t, n + 1 =>
    match t.quoted with
    | some q => nthQuoted q n
    | none => none

/-!
## Persisted state files (`src/state.ts`) and the metadata cache
(`src/metadata-cache.ts`)

A persisted JSON document is `absent` (file does not exist), `corrupt`
(exists but fails to parse) or `good v`.
-/

/-- A persisted JSON file: missing, unparseable, or holding a value. -/
inductive FileState (α : Type) where
  | absent
  | corrupt
  | good (val : α)
deriving DecidableEq, Repr

/-- `loadState` of `state.ts` (lines 7-19): return the parsed checkpoint,
or the empty state `{}` when the file is absent or cannot be parsed. -/
def loadState (fs : FileState ExporterState) : ExporterState :=
  match fs with
  | .good s => s
  | _ => {}

/-- One entry of the append-only error log (`errors.json`). -/
structure ExportError where
  tweetId : String
  error : String
  timestamp : String
  context : String
deriving DecidableEq, Repr

/-- `loadErrors` of `state.ts` (lines 64-76): parsed error list, or `[]`
when the file is absent or unparseable. -/
def loadErrors (fs : FileState (List ExportError)) : List ExportError :=
  match fs with
  | .good es => es
  | _ => []

/-- `appendError` of `state.ts` (lines 78-86): load the existing log, push
the new entry, write the whole array back. -/
def appendError (fs : FileState (List ExportError)) (e : ExportError) :
    FileState (List ExportError) :=
  .good (loadErrors fs ++ [e])

/-- A metadata cache entry: the cached value and the fetch time in
milliseconds since the epoch (`fetchedAt` is an ISO timestamp in the source;
`new Date(s).getTime()` yields its millisecond value). -/
structure CacheEntry (α : Type) where
  metadata : α
  fetchedAt : Int
deriving DecidableEq, Repr

/-- Milliseconds per day, the divisor `1000 * 60 * 60 * 24` of `isFresh`. -/
def msPerDay : Int := 1000 * 60 * 60 * 24

/-- `isFresh` of `metadata-cache.ts` (lines 55-61): the entry's age in days
(exact division, as a rational) is strictly below the 7-day TTL. -/
def isFresh {α : Type} (now : Int) (e : CacheEntry α) : Bool :=
  decide ((((now - e.fetchedAt : Int) : ℚ) / ((msPerDay : Int) : ℚ)) < 7)

/-- JS object property lookup on the cache map. -/
def lookupEntry {α : Type} (cache : List (String × CacheEntry α))
    (url : String) : Option (CacheEntry α) :=
  (cache.find? fun p => p.1 == url).map Prod.snd

/-- `getCachedMetadata` (lines 64-76): the cached value if a fresh entry
exists, else `null`. -/
def getCachedMetadata {α : Type} (cache : List (String × CacheEntry α))
    (now : Int) (url : String) : Option α :=
  match lookupEntry cache url with
  | some e => if isFresh now e then some e.metadata else none
  | none => none

/-- `cacheMetadata` (lines 79-92): `memoryCache[url] = {metadata, fetchedAt:
now}` (property assignment replaces any previous entry for the url). -/
def cacheMetadata {α : Type} (cache : List (String × CacheEntry α))
    (url : String) (m : α) (now : Int) : List (String × CacheEntry α) :=
  (url, ⟨m, now⟩) :: cache.filter fun p => p.1 != url

/-- `getMetadataWithCache` (lines 95-110): return the cached value on a
fresh hit, otherwise invoke the fetcher and store the result.  The returned
triple is (value, cache afterwards, whether the fetcher was invoked). -/
def getMetadataWithCache {α : Type} (cache : List (String × CacheEntry α))
    (now : Int) (url : String) (fetcher : String → α) :
    α × List (String × CacheEntry α) × Bool :=
  match getCachedMetadata cache now url with
  | some v => (v, cache, false)
  | none =>
    let m := fetcher url
    (m, cacheMetadata cache url m now, true)

/-!
## Concrete scenarios

Named inputs used by the counterexamples and witnesses below.
-/

/-- A plain bookmark post with the given id. -/
def tw (s : String) : Tweet := ⟨s, "user", none⟩

/-- Two identical runs over one single-post set: the environment of the
idempotence scenario. -/
def envTwice : ExpEnv := ⟨[[tw "p1"]], fun _ => .ok⟩

/-- One page `[p1, p2]`, everything processable. -/
def envPair : ExpEnv := ⟨[[tw "p1", tw "p2"]], fun _ => .ok⟩

/-- One page `[p1, p2]` where processing `p1` fails with a non-rate-limit
error and `p2` succeeds. -/
def envErrFirst : ExpEnv :=
  ⟨[[tw "p1", tw "p2"]], fun t => if t.id == "p1" then .failed else .ok⟩

/-- Boundary scenario: page 0 is `[m]`, page 1 is `[x, n]`, everything
processable; the previous run's boundary id will be `x`. -/
def envBoundary : ExpEnv := ⟨[[tw "m"], [tw "x", tw "n"]], fun _ => .ok⟩

/-- Rate-limit scenario: one page `[a, b, c]` whose post `b` rate-limits
during processing. -/
def envRL : ExpEnv :=
  ⟨[[tw "a", tw "b", tw "c"]],
    fun t => if t.id == "b" then .rateLimited else .ok⟩

/-- Resume scenario: all processing succeeds; the page remainder comes from
the cached checkpoint, so no fetched pages are needed. -/
def envResume : ExpEnv := ⟨[], fun _ => .ok⟩

/-- The checkpoint persisted by the rate-limit scenario: remainder `[b, c]`
cached, no next page. -/
def stResume : ExporterState :=
  { currentPageBookmarks := some [tw "b", tw "c"], currentPage := some 1 }

/-- Thread scenario (the spec's reply-classification test): root `r` by
alice, her continuations `c1 → c2`, bob's reply `o1 → r`, carol's reply
`o2 → c2`, and the ancestor `a` (the post `r` itself replies to) by dave,
all returned by every conversation query. -/
def thRoot : Tweet := ⟨"r", "alice", some "a"⟩

/-- alice's continuation of `r`. -/
def thC1 : Tweet := ⟨"c1", "alice", some "r"⟩

/-- alice's continuation of `c1`. -/
def thC2 : Tweet := ⟨"c2", "alice", some "c1"⟩

/-- bob's reply to `r`. -/
def thO1 : Tweet := ⟨"o1", "bob", some "r"⟩

/-- carol's reply to `c2`. -/
def thO2 : Tweet := ⟨"o2", "carol", some "c2"⟩

/-- the ancestor `a` that `r` replies to; its own reply target is outside
the conversation. -/
def thA : Tweet := ⟨"a", "dave", none⟩

/-- Every conversation query returns the whole conversation. -/
def envThread : ThreadEnv :=
  ⟨fun _ => some [thRoot, thC1, thC2, thO1, thO2, thA]⟩

/-- Quote-chain scenario: the id of the `n`-th chain member. -/
def qid (n : Nat) : String := "q" ++ toString n

/-- The truncated embedded summary of chain member `n` (no nested quote
visible). -/
def qSummary (n : Nat) : QTweet := .leaf (qid n)

/-- The full chain member `n` as returned by `getTweet`: it quotes the
embedded summary of member `n + 1`, up to nesting depth 25. -/
def qFull (n : Nat) : QTweet :=
  if n < 25 then .quote (qid n) (qSummary (n + 1)) else .leaf (qid n)

/-- `getTweet` for the quote chain: resolves the id `q<n>` (n ≤ 25) to the
full tweet. -/
def chainGetTweet (s : String) : Option QTweet :=
  ((List.range 26).find? fun n => qid n == s).map qFull

/-- Expanding the head of the depth-25 chain at the clamped "unlimited"
depth. -/
def chainResult : QTweet :=
  expandQuotedTweets chainGetTweet (qFull 0) (parseQuoteDepth (-1))

/-- The expected expansion: `expectChain k` is the fully expanded chain
covering members `19 - k` through `19`, ending in the unexpanded embedded
summary of member 20.  `expectChain 19` therefore has the 20 fully expanded
levels `q0 … q19` followed by the summary of `q20`. -/
def expectChain : Nat → QTweet
  | 0 => .quote (qid 19) (qSummary 20)
  | k + 1 => .quote (qid (19 - (k + 1))) (expectChain k)

/-- A sample error-log entry. -/
def errA : ExportError := ⟨"p1", "boom", "2026-01-01", "processing"⟩

/-- Another sample error-log entry. -/
def errB : ExportError := ⟨"p2", "crash", "2026-01-02", "processing"⟩

/-- A one-entry metadata cache whose entry for `"u"` was fetched at time
0. -/
def cacheSample : List (String × CacheEntry Nat) := [("u", ⟨42, 0⟩)]

/-!
## Helper lemmas
-/

theorem processedIds_append (a b : List Ev) :
    processedIds (a ++ b) = processedIds a ++ processedIds b := by
  induction a with
  | nil => rfl
  | cons e tr ih => cases e <;> simp [processedIds, ih]

theorem okIds_append (a b : List Ev) :
    okIds (a ++ b) = okIds a ++ okIds b := by
  induction a with
  | nil => rfl
  | cons e tr ih => cases e <;> simp [okIds, ih]

theorem fetchFree_nil : fetchFree [] := by
  intro j h
  simp at h

theorem fetchFree_cons {e : Ev} {tr : List Ev} (he : ∀ j, e ≠ Ev.fetch j)
    (h : fetchFree tr) : fetchFree (e :: tr) := by
  intro j hj
  rcases List.mem_cons.mp hj with h1 | h1
  · exact he j h1.symm
  · exact h j h1

theorem fetchFree_append {a b : List Ev} (ha : fetchFree a)
    (hb : fetchFree b) : fetchFree (a ++ b) := by
  intro j hj
  rcases List.mem_append.mp hj with h1 | h1
  · exact ha j h1
  · exact hb j h1

theorem noFetchAfterX_of_fetchFree (env : ExpEnv) (X : String)
    {tr : List Ev} (h : fetchFree tr) : noFetchAfterX env X tr := by
  induction tr with
  | nil => trivial
  | cons e tr ih =>
    have htr : fetchFree tr := fun j hj => h j (List.mem_cons_of_mem _ hj)
    cases e with
    | fetch j => exact absurd (List.mem_cons_self _ _) fun c => h j c
    | skip x => exact ih htr
    | procOk x => exact ih htr
    | procErr x => exact ih htr
    | procRL x => exact ih htr
    | save s => exact ih htr

theorem noFetchAfterX_append (env : ExpEnv) (X : String) {a b : List Ev}
    (ha : fetchFree a) (hb : noFetchAfterX env X b) :
    noFetchAfterX env X (a ++ b) := by
  induction a with
  | nil => simpa using hb
  | cons e tr ih =>
    have htr : fetchFree tr := fun j hj => ha j (List.mem_cons_of_mem _ hj)
    cases e with
    | fetch j => exact absurd (List.mem_cons_self _ _) fun c => ha j c
    | skip x => exact ih htr
    | procOk x => exact ih htr
    | procErr x => exact ih htr
    | procRL x => exact ih htr
    | save s => exact ih htr

theorem noFetchAfterRL_of_fetchFree {tr : List Ev} (h : fetchFree tr) :
    noFetchAfterRL tr := by
  induction tr with
  | nil => trivial
  | cons e tr ih =>
    have htr : fetchFree tr := fun j hj => h j (List.mem_cons_of_mem _ hj)
    cases e with
    | fetch j => exact ih htr
    | skip x => exact ih htr
    | procOk x => exact ih htr
    | procErr x => exact ih htr
    | procRL x => exact ⟨htr, ih htr⟩
    | save s => exact ih htr

theorem noFetchAfterRL_append {a b : List Ev}
    (ha : ∀ x, Ev.procRL x ∉ a) (hb : noFetchAfterRL b) :
    noFetchAfterRL (a ++ b) := by
  induction a with
  | nil => simpa using hb
  | cons e tr ih =>
    have htr : ∀ x, Ev.procRL x ∉ tr :=
      fun x hx => ha x (List.mem_cons_of_mem _ hx)
    cases e with
    | fetch j => exact ih htr
    | skip x => exact ih htr
    | procOk x => exact ih htr
    | procErr x => exact ih htr
    | procRL x => exact absurd (List.mem_cons_self _ _) fun c => ha x c
    | save s => exact ih htr

theorem anchorStep_fst_prev (fresh : Bool) (res : ExportResult) (i : Nat)
    (t : Tweet) (st saved : ExporterState) :
    (anchorStep fresh res i t st saved).1.previousFirstExported =
      st.previousFirstExported := by
  unfold anchorStep
  split <;> rfl

theorem anchorStep_fst_cpb (fresh : Bool) (res : ExportResult) (i : Nat)
    (t : Tweet) (st saved : ExporterState) :
    (anchorStep fresh res i t st saved).1.currentPageBookmarks =
      st.currentPageBookmarks := by
  unfold anchorStep
  split <;> rfl

theorem anchorStep_evs_processedIds (fresh : Bool) (res : ExportResult)
    (i : Nat) (t : Tweet) (st saved : ExporterState) :
    processedIds (anchorStep fresh res i t st saved).2.2 = [] := by
  unfold anchorStep
  split <;> rfl

theorem anchorStep_evs_fetchFree (fresh : Bool) (res : ExportResult)
    (i : Nat) (t : Tweet) (st saved : ExporterState) :
    fetchFree (anchorStep fresh res i t st saved).2.2 := by
  unfold anchorStep
  split
  · exact fetchFree_cons (fun j h => by simp at h) fetchFree_nil
  · exact fetchFree_nil

theorem anchorStep_evs_noRL (fresh : Bool) (res : ExportResult)
    (i : Nat) (t : Tweet) (st saved : ExporterState) :
    ∀ x, Ev.procRL x ∉ (anchorStep fresh res i t st saved).2.2 := by
  unfold anchorStep
  split
  · intro x hx
    simp at hx
  · intro x hx
    simp at hx

theorem processPage_fetchFree (env : ExpEnv) (fresh : Bool)
    (pageNum : Nat) (pc : Option Nat) (page : List Tweet) (i : Nat)
    (st saved : ExporterState) (disk : List String) (res : ExportResult) :
    fetchFree (processPage env fresh pageNum pc page i st saved disk
      res).trace := by
  induction page generalizing i st saved disk res with
  | nil => exact fetchFree_nil
  | cons t rest ih =>
    simp only [processPage]
    split
    · exact anchorStep_evs_fetchFree _ _ _ _ _ _
    · split
      · split
        · exact fetchFree_append (anchorStep_evs_fetchFree _ _ _ _ _ _)
            (fetchFree_cons (by simp) fetchFree_nil)
        · exact fetchFree_append (anchorStep_evs_fetchFree _ _ _ _ _ _)
            (fetchFree_cons (by simp) (ih _ _ _ _ _))
      · split
        · exact fetchFree_append (anchorStep_evs_fetchFree _ _ _ _ _ _)
            (fetchFree_cons (by simp)
              (fetchFree_cons (by simp) (ih _ _ _ _ _)))
        · exact fetchFree_append (anchorStep_evs_fetchFree _ _ _ _ _ _)
            (fetchFree_cons (by simp)
              (fetchFree_cons (by simp) fetchFree_nil))
        · exact fetchFree_append (anchorStep_evs_fetchFree _ _ _ _ _ _)
            (fetchFree_cons (by simp)
              (fetchFree_cons (by simp) fetchFree_nil))
        · exact fetchFree_append (anchorStep_evs_fetchFree _ _ _ _ _ _)
            (fetchFree_cons (by simp) (ih _ _ _ _ _))

theorem processPage_noRL_of_exit (env : ExpEnv) (fresh : Bool)
    (pageNum : Nat) (pc : Option Nat) (page : List Tweet) (i : Nat)
    (st saved : ExporterState) (disk : List String) (res : ExportResult)
    (h : (processPage env fresh pageNum pc page i st saved disk res).exit ≠
      PExit.rateLimited) :
    ∀ x, Ev.procRL x ∉
      (processPage env fresh pageNum pc page i st saved disk res).trace := by
  induction page generalizing i st saved disk res with
  | nil =>
    intro x hx
    simp [processPage] at hx
  | cons t rest ih =>
    revert h
    simp only [processPage]
    split
    · intro h x hx
      exact absurd hx fun hx => by
        have := anchorStep_evs_noRL fresh res i t st saved x
        exact this hx
    · split
      · split
        · intro h x hx
          rcases List.mem_append.mp hx with h1 | h1
          · exact anchorStep_evs_noRL fresh res i t st saved x h1
          · simp at h1
        · intro h x hx
          rcases List.mem_append.mp hx with h1 | h1
          · exact anchorStep_evs_noRL fresh res i t st saved x h1
          · rcases List.mem_cons.mp h1 with h2 | h2
            · simp at h2
            · exact ih _ _ _ _ _ (by simpa using h) x h2
      · split
        · intro h x hx
          rcases List.mem_append.mp hx with h1 | h1
          · exact anchorStep_evs_noRL fresh res i t st saved x h1
          · rcases List.mem_cons.mp h1 with h2 | h2
            · simp at h2
            · rcases List.mem_cons.mp h2 with h3 | h3
              · simp at h3
              · exact ih _ _ _ _ _ (by simpa using h) x h3
        · intro h
          simp at h
        · intro h
          simp at h
        · intro h x hx
          rcases List.mem_append.mp hx with h1 | h1
          · exact anchorStep_evs_noRL fresh res i t st saved x h1
          · rcases List.mem_cons.mp h1 with h2 | h2
            · simp at h2
            · exact ih _ _ _ _ _ (by simpa using h) x h2

theorem processPage_noFetchAfterRL (env : ExpEnv) (fresh : Bool)
    (pageNum : Nat) (pc : Option Nat) (page : List Tweet) (i : Nat)
    (st saved : ExporterState) (disk : List String) (res : ExportResult) :
    noFetchAfterRL (processPage env fresh pageNum pc page i st saved disk
      res).trace := by
  induction page generalizing i st saved disk res with
  | nil => trivial
  | cons t rest ih =>
    simp only [processPage]
    split
    · exact noFetchAfterRL_of_fetchFree (anchorStep_evs_fetchFree _ _ _ _ _ _)
    · split
      · split
        · exact noFetchAfterRL_append (anchorStep_evs_noRL _ _ _ _ _ _)
            (noFetchAfterRL_of_fetchFree
              (fetchFree_cons (by simp) fetchFree_nil))
        · refine noFetchAfterRL_append (anchorStep_evs_noRL _ _ _ _ _ _) ?_
          show noFetchAfterRL (Ev.skip t.id :: _)
          exact ih _ _ _ _ _
      · split
        · refine noFetchAfterRL_append (anchorStep_evs_noRL _ _ _ _ _ _) ?_
          show noFetchAfterRL (Ev.procOk t.id :: Ev.save _ :: _)
          exact ih _ _ _ _ _
        · refine noFetchAfterRL_append (anchorStep_evs_noRL _ _ _ _ _ _) ?_
          exact ⟨fetchFree_cons (by simp) fetchFree_nil,
            noFetchAfterRL_of_fetchFree
              (fetchFree_cons (by simp) fetchFree_nil)⟩
        · refine noFetchAfterRL_append (anchorStep_evs_noRL _ _ _ _ _ _) ?_
          exact ⟨fetchFree_cons (by simp) fetchFree_nil,
            noFetchAfterRL_of_fetchFree
              (fetchFree_cons (by simp) fetchFree_nil)⟩
        · refine noFetchAfterRL_append (anchorStep_evs_noRL _ _ _ _ _ _) ?_
          show noFetchAfterRL (Ev.procErr t.id :: _)
          exact ih _ _ _ _ _

theorem anchorStep_prev_eq (fresh : Bool) (res : ExportResult) (i : Nat)
    (t : Tweet) (st saved : ExporterState) (p : Option String)
    (hst : st.previousFirstExported = p)
    (hsv : saved.previousFirstExported = p) :
    (anchorStep fresh res i t st saved).1.previousFirstExported = p ∧
    (anchorStep fresh res i t st saved).2.1.previousFirstExported = p := by
  unfold anchorStep
  split
  · exact ⟨hst, hst⟩
  · exact ⟨hst, hsv⟩

theorem processPage_prev (env : ExpEnv) (fresh : Bool) (pageNum : Nat)
    (pc : Option Nat) (page : List Tweet) (i : Nat)
    (st saved : ExporterState) (disk : List String) (res : ExportResult)
    (p : Option String) (hst : st.previousFirstExported = p)
    (hsv : saved.previousFirstExported = p) :
    (processPage env fresh pageNum pc page i st saved disk
      res).st.previousFirstExported = p ∧
    (processPage env fresh pageNum pc page i st saved disk
      res).saved.previousFirstExported = p := by
  induction page generalizing i st saved disk res with
  | nil => exact ⟨hst, hsv⟩
  | cons t rest ih =>
    have hA := anchorStep_prev_eq fresh res i t st saved p hst hsv
    simp only [processPage]
    split
    · exact hA
    · split
      · split
        · exact hA
        · exact ih _ _ _ _ _ hA.1 hA.2
      · split
        · exact ih _ _ _ _ _ hA.1 hA.1
        · exact ⟨hA.1, hA.1⟩
        · exact ⟨hA.1, hA.1⟩
        · exact ih _ _ _ _ _ hA.1 hA.2

theorem processPage_rl_flag (env : ExpEnv) (fresh : Bool) (pageNum : Nat)
    (pc : Option Nat) (page : List Tweet) (i : Nat)
    (st saved : ExporterState) (disk : List String) (res : ExportResult)
    (h : (processPage env fresh pageNum pc page i st saved disk res).exit ≠
      PExit.rateLimited) :
    (processPage env fresh pageNum pc page i st saved disk
      res).res.rateLimited = res.rateLimited := by
  induction page generalizing i st saved disk res with
  | nil => rfl
  | cons t rest ih =>
    revert h
    simp only [processPage]
    split
    · intro h
      rfl
    · split
      · split
        · intro h
          rfl
        · intro h
          exact ih _ _ _ _ _ (by simpa using h)
      · split
        · intro h
          exact ih _ _ _ _ _ (by simpa using h)
        · intro h
          simp at h
        · intro h
          simp at h
        · intro h
          exact ih _ _ _ _ _ (by simpa using h)

theorem processPage_rateLimit_step (env : ExpEnv) (fresh : Bool)
    (pageNum : Nat) (pc : Option Nat) (t : Tweet) (rest : List Tweet)
    (k : Nat) (st saved : ExporterState) (disk : List String)
    (res : ExportResult)
    (hb : st.previousFirstExported ≠ some t.id) (hd : t.id ∉ disk)
    (hrl : env.process t = Outcome.rateLimited) :
    processPage env fresh pageNum pc (t :: rest) k st saved disk res =
      ⟨PExit.rateLimited,
       { (anchorStep fresh res k t st saved).1 with
           currentPageBookmarks := some (t :: rest), nextCursor := pc },
       { (anchorStep fresh res k t st saved).1 with
           currentPageBookmarks := some (t :: rest), nextCursor := pc },
       disk, { res with rateLimited := true },
       (anchorStep fresh res k t st saved).2.2 ++
         [Ev.procRL t.id,
          Ev.save { (anchorStep fresh res k t st saved).1 with
            currentPageBookmarks := some (t :: rest), nextCursor := pc }]⟩ := by
  simp only [processPage]
  rw [if_neg (by rw [anchorStep_fst_prev]; exact hb), if_neg hd, hrl]

theorem processPage_ok_step (env : ExpEnv) (fresh : Bool)
    (pageNum : Nat) (pc : Option Nat) (t : Tweet) (rest : List Tweet)
    (k : Nat) (st saved : ExporterState) (disk : List String)
    (res : ExportResult)
    (hb : st.previousFirstExported ≠ some t.id) (hd : t.id ∉ disk)
    (hok : env.process t = Outcome.ok) :
    processPage env fresh pageNum pc (t :: rest) k st saved disk res =
      (let A := anchorStep fresh res k t st saved
       let st2 := { A.1 with currentPageBookmarks := some rest }
       let r := processPage env fresh pageNum pc rest (k + 1) st2 st2
         (t.id :: disk) { res with exported := res.exported + 1 }
       { r with trace := A.2.2 ++ Ev.procOk t.id :: Ev.save st2 :: r.trace }) := by
  simp only [processPage]
  rw [if_neg (by rw [anchorStep_fst_prev]; exact hb), if_neg hd, hok]

theorem processPage_skip_step (env : ExpEnv) (fresh : Bool)
    (pageNum : Nat) (pc : Option Nat) (t : Tweet) (rest : List Tweet)
    (k : Nat) (st saved : ExporterState) (disk : List String)
    (res : ExportResult)
    (hb : st.previousFirstExported ≠ some t.id) (hd : t.id ∈ disk)
    (hg : ¬(fresh = true ∧ k = 0 ∧ pageNum = 1)) :
    processPage env fresh pageNum pc (t :: rest) k st saved disk res =
      (let A := anchorStep fresh res k t st saved
       let r := processPage env fresh pageNum pc rest (k + 1) A.1 A.2.1 disk
         { res with skipped := res.skipped + 1 }
       { r with trace := A.2.2 ++ Ev.skip t.id :: r.trace }) := by
  simp only [processPage]
  rw [if_neg (by rw [anchorStep_fst_prev]; exact hb), if_pos hd, if_neg hg]

theorem processPage_skip_break_step (env : ExpEnv) (fresh : Bool)
    (pageNum : Nat) (pc : Option Nat) (t : Tweet) (rest : List Tweet)
    (k : Nat) (st saved : ExporterState) (disk : List String)
    (res : ExportResult)
    (hb : st.previousFirstExported ≠ some t.id) (hd : t.id ∈ disk)
    (hg : fresh = true ∧ k = 0 ∧ pageNum = 1) :
    processPage env fresh pageNum pc (t :: rest) k st saved disk res =
      ⟨PExit.boundary, (anchorStep fresh res k t st saved).1,
       (anchorStep fresh res k t st saved).2.1, disk,
       { res with skipped := res.skipped + 1, hitPreviousExport := true },
       (anchorStep fresh res k t st saved).2.2 ++ [Ev.skip t.id]⟩ := by
  simp only [processPage]
  rw [if_neg (by rw [anchorStep_fst_prev]; exact hb), if_pos hd, if_pos hg]

theorem processPage_anchor_head (env : ExpEnv) (pageNum : Nat)
    (pc : Option Nat) (t : Tweet) (rest : List Tweet)
    (st saved : ExporterState) (disk : List String) (res : ExportResult)
    (he : res.exported = 0) (hs : res.skipped = 0) :
    (processPage env true pageNum pc (t :: rest) 0 st saved disk
      res).trace.head? =
      some (Ev.save { st with currentRunFirstExported := some t.id }) := by
  have hA : anchorStep true res 0 t st saved =
      ({ st with currentRunFirstExported := some t.id },
       { st with currentRunFirstExported := some t.id },
       [Ev.save { st with currentRunFirstExported := some t.id }]) := by
    unfold anchorStep
    rw [if_pos ⟨rfl, he, hs, rfl⟩]
  simp only [processPage, hA]
  split
  · rfl
  · split
    · split
      · rfl
      · rfl
    · split
      · rfl
      · rfl
      · rfl
      · rfl

theorem processPage_notFresh_anchor (env : ExpEnv) (pageNum : Nat)
    (pc : Option Nat) (page : List Tweet) (i : Nat)
    (st saved : ExporterState) (disk : List String) (res : ExportResult)
    (hcs : saved.currentRunFirstExported = st.currentRunFirstExported) :
    (processPage env false pageNum pc page i st saved disk
      res).st.currentRunFirstExported = st.currentRunFirstExported ∧
    (processPage env false pageNum pc page i st saved disk
      res).saved.currentRunFirstExported = st.currentRunFirstExported := by
  induction page generalizing i st saved disk res with
  | nil => exact ⟨rfl, hcs⟩
  | cons t rest ih =>
    have hA : anchorStep false res i t st saved = (st, saved, []) := by
      unfold anchorStep
      rw [if_neg (by simp)]
    simp only [processPage, hA]
    split
    · exact ⟨rfl, hcs⟩
    · split
      · split
        · exact ⟨rfl, hcs⟩
        · exact ih _ _ _ _ _ hcs
      · split
        · exact ih _ _ _ _ _ rfl
        · exact ⟨rfl, rfl⟩
        · exact ⟨rfl, rfl⟩
        · exact ih _ _ _ _ _ hcs

theorem processPage_boundary_hit_step (env : ExpEnv) (fresh : Bool)
    (pageNum : Nat) (pc : Option Nat) (t : Tweet) (rest : List Tweet)
    (k : Nat) (st saved : ExporterState) (disk : List String)
    (res : ExportResult) (hb : st.previousFirstExported = some t.id) :
    processPage env fresh pageNum pc (t :: rest) k st saved disk res =
      ⟨PExit.boundary, (anchorStep fresh res k t st saved).1,
       (anchorStep fresh res k t st saved).2.1, disk,
       { res with hitPreviousExport := true },
       (anchorStep fresh res k t st saved).2.2⟩ := by
  simp only [processPage]
  rw [if_pos (by rw [anchorStep_fst_prev]; exact hb)]

theorem processPage_failed_step (env : ExpEnv) (fresh : Bool)
    (pageNum : Nat) (pc : Option Nat) (t : Tweet) (rest : List Tweet)
    (k : Nat) (st saved : ExporterState) (disk : List String)
    (res : ExportResult)
    (hb : st.previousFirstExported ≠ some t.id) (hd : t.id ∉ disk)
    (hf : env.process t = Outcome.failed) :
    processPage env fresh pageNum pc (t :: rest) k st saved disk res =
      (let A := anchorStep fresh res k t st saved
       let r := processPage env fresh pageNum pc rest (k + 1) A.1 A.2.1 disk
         { res with errors := res.errors + 1 }
       { r with trace := A.2.2 ++ Ev.procErr t.id :: r.trace }) := by
  simp only [processPage]
  rw [if_neg (by rw [anchorStep_fst_prev]; exact hb), if_neg hd, hf]

theorem processPage_okRL_step (env : ExpEnv) (fresh : Bool)
    (pageNum : Nat) (pc : Option Nat) (t : Tweet) (rest : List Tweet)
    (k : Nat) (st saved : ExporterState) (disk : List String)
    (res : ExportResult)
    (hb : st.previousFirstExported ≠ some t.id) (hd : t.id ∉ disk)
    (hrl : env.process t = Outcome.okRateLimited) :
    processPage env fresh pageNum pc (t :: rest) k st saved disk res =
      ⟨PExit.rateLimited,
       { (anchorStep fresh res k t st saved).1 with
           currentPageBookmarks := some (t :: rest), nextCursor := pc },
       { (anchorStep fresh res k t st saved).1 with
           currentPageBookmarks := some (t :: rest), nextCursor := pc },
       t.id :: disk, { res with rateLimited := true },
       (anchorStep fresh res k t st saved).2.2 ++
         [Ev.procRL t.id,
          Ev.save { (anchorStep fresh res k t st saved).1 with
            currentPageBookmarks := some (t :: rest), nextCursor := pc }]⟩ := by
  simp only [processPage]
  rw [if_neg (by rw [anchorStep_fst_prev]; exact hb), if_neg hd, hrl]

theorem notMem_takeWhile_ne (X : String) (page : List Tweet) :
    X ∉ (page.takeWhile fun t => t.id != X).map Tweet.id := by
  intro h
  rcases List.mem_map.mp h with ⟨t, ht, hid⟩
  have := List.mem_takeWhile_imp ht
  rw [hid] at this
  simp at this

theorem processPage_boundary_processed (env : ExpEnv) (fresh : Bool)
    (pageNum : Nat) (pc : Option Nat) (page : List Tweet) (i : Nat)
    (st saved : ExporterState) (disk : List String) (res : ExportResult)
    (X : String) (hX : st.previousFirstExported = some X) :
    ∀ y ∈ processedIds (processPage env fresh pageNum pc page i st saved disk
      res).trace,
      y ∈ (page.takeWhile fun t => t.id != X).map Tweet.id := by
  induction page generalizing i st saved disk res with
  | nil =>
    intro y hy
    simp [processPage, processedIds] at hy
  | cons t rest ih =>
    have hA1 := anchorStep_fst_prev fresh res i t st saved
    have hAe := anchorStep_evs_processedIds fresh res i t st saved
    by_cases hid : t.id = X
    · rw [processPage_boundary_hit_step env fresh pageNum pc t rest i st saved
        disk res (by rw [hX, hid])]
      intro y hy
      rw [hAe] at hy
      simp at hy
    · have hbne : st.previousFirstExported ≠ some t.id := by
        rw [hX]
        intro hc
        exact hid (Option.some.injEq .. ▸ hc).symm
      have htw : (t :: rest).takeWhile (fun t => t.id != X) =
          t :: rest.takeWhile (fun t => t.id != X) :=
        List.takeWhile_cons_of_pos (by simp [hid])
      rw [htw]
      by_cases hdisk : t.id ∈ disk
      · by_cases hg : fresh = true ∧ i = 0 ∧ pageNum = 1
        · rw [processPage_skip_break_step env fresh pageNum pc t rest i st
            saved disk res hbne hdisk hg]
          intro y hy
          rw [processedIds_append, hAe] at hy
          simp [processedIds] at hy
        · rw [processPage_skip_step env fresh pageNum pc t rest i st saved
            disk res hbne hdisk hg]
          intro y hy
          rw [processedIds_append, hAe] at hy
          simp only [List.nil_append, processedIds] at hy
          have := ih (i + 1) (anchorStep fresh res i t st saved).1
            (anchorStep fresh res i t st saved).2.1 disk
            { res with skipped := res.skipped + 1 } (by rw [hA1, hX]) y hy
          simp only [List.map_cons, List.mem_cons]
          exact Or.inr this
      · rcases houtcome : env.process t with _ | _ | _ | _
        · rw [processPage_ok_step env fresh pageNum pc t rest i st saved
            disk res hbne hdisk houtcome]
          intro y hy
          rw [processedIds_append, hAe] at hy
          simp only [List.nil_append, processedIds] at hy
          rcases List.mem_cons.mp hy with h1 | h1
          · simp [h1]
          · have := ih (i + 1)
              { (anchorStep fresh res i t st saved).1 with
                  currentPageBookmarks := some rest }
              { (anchorStep fresh res i t st saved).1 with
                  currentPageBookmarks := some rest }
              (t.id :: disk) { res with exported := res.exported + 1 }
              (by show (anchorStep fresh res i t st saved).1.previousFirstExported = _
                  rw [hA1, hX]) y h1
            simp only [List.map_cons, List.mem_cons]
            exact Or.inr this
        · rw [processPage_rateLimit_step env fresh pageNum pc t rest i st
            saved disk res hbne hdisk houtcome]
          intro y hy
          rw [processedIds_append, hAe] at hy
          simp only [List.nil_append, processedIds] at hy
          rcases List.mem_cons.mp hy with h1 | h1
          · simp [h1]
          · simp [processedIds] at h1
        · rw [processPage_okRL_step env fresh pageNum pc t rest i st saved
            disk res hbne hdisk houtcome]
          intro y hy
          rw [processedIds_append, hAe] at hy
          simp only [List.nil_append, processedIds] at hy
          rcases List.mem_cons.mp hy with h1 | h1
          · simp [h1]
          · simp [processedIds] at h1
        · rw [processPage_failed_step env fresh pageNum pc t rest i st saved
            disk res hbne hdisk houtcome]
          intro y hy
          rw [processedIds_append, hAe] at hy
          simp only [List.nil_append, processedIds] at hy
          rcases List.mem_cons.mp hy with h1 | h1
          · simp [h1]
          · have := ih (i + 1) (anchorStep fresh res i t st saved).1
              (anchorStep fresh res i t st saved).2.1 disk
              { res with errors := res.errors + 1 } (by rw [hA1, hX]) y h1
            simp only [List.map_cons, List.mem_cons]
            exact Or.inr this

theorem processPage_boundary_noX (env : ExpEnv) (fresh : Bool)
    (pageNum : Nat) (pc : Option Nat) (page : List Tweet) (i : Nat)
    (st saved : ExporterState) (disk : List String) (res : ExportResult)
    (X : String) (hX : st.previousFirstExported = some X) :
    X ∉ processedIds (processPage env fresh pageNum pc page i st saved disk
      res).trace := by
  intro h
  exact notMem_takeWhile_ne X page
    (processPage_boundary_processed env fresh pageNum pc page i st saved disk
      res X hX X h)

theorem processPage_boundary_exit (env : ExpEnv) (fresh : Bool)
    (pageNum : Nat) (pc : Option Nat) (page : List Tweet) (i : Nat)
    (st saved : ExporterState) (disk : List String) (res : ExportResult)
    (X : String) (hX : st.previousFirstExported = some X)
    (hmem : X ∈ page.map Tweet.id) :
    (processPage env fresh pageNum pc page i st saved disk res).exit ≠
      PExit.finishedPage := by
  induction page generalizing i st saved disk res with
  | nil => simp at hmem
  | cons t rest ih =>
    have hA1 := anchorStep_fst_prev fresh res i t st saved
    by_cases hid : t.id = X
    · rw [processPage_boundary_hit_step env fresh pageNum pc t rest i st saved
        disk res (by rw [hX, hid])]
      simp
    · have hbne : st.previousFirstExported ≠ some t.id := by
        rw [hX]
        intro hc
        exact hid (Option.some.injEq .. ▸ hc).symm
      have hmem' : X ∈ rest.map Tweet.id := by
        rcases List.mem_map.mp hmem with ⟨u, hu, hidu⟩
        rcases List.mem_cons.mp hu with h1 | h1
        · exact absurd (h1 ▸ hidu) hid
        · exact hidu ▸ List.mem_map_of_mem _ h1
      by_cases hdisk : t.id ∈ disk
      · by_cases hg : fresh = true ∧ i = 0 ∧ pageNum = 1
        · rw [processPage_skip_break_step env fresh pageNum pc t rest i st
            saved disk res hbne hdisk hg]
          simp
        · rw [processPage_skip_step env fresh pageNum pc t rest i st saved
            disk res hbne hdisk hg]
          exact ih (i + 1) (anchorStep fresh res i t st saved).1
            (anchorStep fresh res i t st saved).2.1 disk
            { res with skipped := res.skipped + 1 } (by rw [hA1, hX]) hmem'
      · rcases houtcome : env.process t with _ | _ | _ | _
        · rw [processPage_ok_step env fresh pageNum pc t rest i st saved
            disk res hbne hdisk houtcome]
          exact ih (i + 1)
            { (anchorStep fresh res i t st saved).1 with
                currentPageBookmarks := some rest }
            { (anchorStep fresh res i t st saved).1 with
                currentPageBookmarks := some rest }
            (t.id :: disk) { res with exported := res.exported + 1 }
            (by show (anchorStep fresh res i t st saved).1.previousFirstExported = _
                rw [hA1, hX]) hmem'
        · rw [processPage_rateLimit_step env fresh pageNum pc t rest i st
            saved disk res hbne hdisk houtcome]
          simp
        · rw [processPage_okRL_step env fresh pageNum pc t rest i st saved
            disk res hbne hdisk houtcome]
          simp
        · rw [processPage_failed_step env fresh pageNum pc t rest i st saved
            disk res hbne hdisk houtcome]
          exact ih (i + 1) (anchorStep fresh res i t st saved).1
            (anchorStep fresh res i t st saved).2.1 disk
            { res with errors := res.errors + 1 } (by rw [hA1, hX]) hmem'

theorem processPage_allOk (env : ExpEnv) (fresh : Bool) (pageNum : Nat)
    (pc : Option Nat) (page : List Tweet) (i : Nat)
    (st saved : ExporterState) (disk : List String) (res : ExportResult)
    (hd : ∀ t ∈ page, t.id ∉ disk)
    (hnd : (page.map Tweet.id).Nodup)
    (hb : ∀ t ∈ page, st.previousFirstExported ≠ some t.id)
    (hok : ∀ t ∈ page, env.process t = Outcome.ok) :
    (processPage env fresh pageNum pc page i st saved disk res).exit =
      PExit.finishedPage ∧
    processedIds (processPage env fresh pageNum pc page i st saved disk
      res).trace = page.map Tweet.id ∧
    (processPage env fresh pageNum pc page i st saved disk
      res).res.hitPreviousExport = res.hitPreviousExport ∧
    (processPage env fresh pageNum pc page i st saved disk
      res).res.rateLimited = res.rateLimited := by
  induction page generalizing i st saved disk res with
  | nil => exact ⟨rfl, rfl, rfl, rfl⟩
  | cons t rest ih =>
    have hA1 := anchorStep_fst_prev fresh res i t st saved
    have hAe := anchorStep_evs_processedIds fresh res i t st saved
    rw [processPage_ok_step env fresh pageNum pc t rest i st saved disk res
      (hb t (List.mem_cons_self _ _)) (hd t (List.mem_cons_self _ _))
      (hok t (List.mem_cons_self _ _))]
    have hndc : (∀ x ∈ rest, ¬x.id = t.id) ∧ (rest.map Tweet.id).Nodup := by
      simpa using hnd
    have hd2 : ∀ u ∈ rest, u.id ∉ t.id :: disk := by
      intro u hu
      simp only [List.mem_cons]
      push_neg
      exact ⟨hndc.1 u hu, hd u (List.mem_cons_of_mem _ hu)⟩
    have hb2 : ∀ u ∈ rest,
        ({ (anchorStep fresh res i t st saved).1 with
          currentPageBookmarks := some rest} :
            ExporterState).previousFirstExported ≠ some u.id := by
      intro u hu
      show (anchorStep fresh res i t st saved).1.previousFirstExported ≠ _
      rw [hA1]
      exact hb u (List.mem_cons_of_mem _ hu)
    have hres := ih (i + 1)
      { (anchorStep fresh res i t st saved).1 with
          currentPageBookmarks := some rest }
      { (anchorStep fresh res i t st saved).1 with
          currentPageBookmarks := some rest }
      (t.id :: disk) { res with exported := res.exported + 1 }
      hd2 hndc.2 hb2 (fun u hu => hok u (List.mem_cons_of_mem _ hu))
    refine ⟨hres.1, ?_, hres.2.2.1, hres.2.2.2⟩
    show processedIds (_ ++ Ev.procOk t.id :: Ev.save _ :: _) = _
    rw [processedIds_append, hAe]
    simp only [List.nil_append, processedIds, List.map_cons]
    rw [hres.2.1]

theorem processPage_boundary_exit_hitPrev (env : ExpEnv) (fresh : Bool)
    (pageNum : Nat) (pc : Option Nat) (page : List Tweet) (i : Nat)
    (st saved : ExporterState) (disk : List String) (res : ExportResult)
    (h : (processPage env fresh pageNum pc page i st saved disk res).exit =
      PExit.boundary) :
    (processPage env fresh pageNum pc page i st saved disk
      res).res.hitPreviousExport = true := by
  induction page generalizing i st saved disk res with
  | nil => simp [processPage] at h
  | cons t rest ih =>
    revert h
    simp only [processPage]
    split
    · intro h
      rfl
    · split
      · split
        · intro h
          rfl
        · intro h
          exact ih _ _ _ _ _ (by simpa using h)
      · split
        · intro h
          exact ih _ _ _ _ _ (by simpa using h)
        · intro h
          simp at h
        · intro h
          simp at h
        · intro h
          exact ih _ _ _ _ _ (by simpa using h)

theorem pageBlock_first3_eq (env : ExpEnv) (cfg : Config) (fresh : Bool)
    (pageNum pagesFetched : Nat) (page : List Tweet) (pageCursor : Option Nat)
    (st0 saved : ExporterState) (disk : List String) (res : ExportResult)
    (rec : ExporterState → ExporterState → List String → ExportResult →
      RunOut)
    (h3 : page.take 3 ≠ [] ∧ ∀ t ∈ page.take 3, t.id ∈ disk) :
    pageBlock env cfg fresh pageNum pagesFetched page pageCursor st0 saved
      disk res rec =
      ⟨{ res with hitPreviousExport := true }, saved, disk, []⟩ := by
  simp only [pageBlock]
  rw [if_pos h3]

theorem pageBlock_rl_eq (env : ExpEnv) (cfg : Config) (fresh : Bool)
    (pageNum pagesFetched : Nat) (page : List Tweet) (pageCursor : Option Nat)
    (st0 saved : ExporterState) (disk : List String) (res : ExportResult)
    (rec : ExporterState → ExporterState → List String → ExportResult →
      RunOut)
    (h3 : ¬(page.take 3 ≠ [] ∧ ∀ t ∈ page.take 3, t.id ∈ disk))
    (hex : (processPage env fresh pageNum pageCursor page 0 st0 saved disk
      res).exit = PExit.rateLimited) :
    pageBlock env cfg fresh pageNum pagesFetched page pageCursor st0 saved
      disk res rec =
      ⟨(processPage env fresh pageNum pageCursor page 0 st0 saved disk
          res).res,
       (processPage env fresh pageNum pageCursor page 0 st0 saved disk
          res).saved,
       (processPage env fresh pageNum pageCursor page 0 st0 saved disk
          res).disk,
       (processPage env fresh pageNum pageCursor page 0 st0 saved disk
          res).trace⟩ := by
  simp only [pageBlock]
  rw [if_neg h3, if_pos hex]

theorem pageBlock_break_eq (env : ExpEnv) (cfg : Config) (fresh : Bool)
    (pageNum pagesFetched : Nat) (page : List Tweet) (pageCursor : Option Nat)
    (st0 saved : ExporterState) (disk : List String) (res : ExportResult)
    (rec : ExporterState → ExporterState → List String → ExportResult →
      RunOut)
    (h3 : ¬(page.take 3 ≠ [] ∧ ∀ t ∈ page.take 3, t.id ∈ disk))
    (hex : (processPage env fresh pageNum pageCursor page 0 st0 saved disk
      res).exit ≠ PExit.rateLimited)
    (hhp : (processPage env fresh pageNum pageCursor page 0 st0 saved disk
      res).res.hitPreviousExport = true) :
    pageBlock env cfg fresh pageNum pagesFetched page pageCursor st0 saved
      disk res rec =
      ⟨(processPage env fresh pageNum pageCursor page 0 st0 saved disk
          res).res,
       finishRun (processPage env fresh pageNum pageCursor page 0 st0 saved
          disk res).saved false,
       (processPage env fresh pageNum pageCursor page 0 st0 saved disk
          res).disk,
       (processPage env fresh pageNum pageCursor page 0 st0 saved disk
          res).trace ++
         [Ev.save (finishRun (processPage env fresh pageNum pageCursor page 0
            st0 saved disk res).saved false)]⟩ := by
  simp only [pageBlock]
  rw [if_neg h3, if_neg hex, if_pos hhp]

theorem pageBlock_maxPages_some_eq (env : ExpEnv) (cfg : Config)
    (fresh : Bool) (pageNum pagesFetched : Nat) (page : List Tweet)
    (c : Nat) (st0 saved : ExporterState) (disk : List String)
    (res : ExportResult)
    (rec : ExporterState → ExporterState → List String → ExportResult →
      RunOut)
    (h3 : ¬(page.take 3 ≠ [] ∧ ∀ t ∈ page.take 3, t.id ∈ disk))
    (hex : (processPage env fresh pageNum (some c) page 0 st0 saved disk
      res).exit ≠ PExit.rateLimited)
    (hhp : (processPage env fresh pageNum (some c) page 0 st0 saved disk
      res).res.hitPreviousExport ≠ true)
    (hmp : maxPagesReached cfg pagesFetched = true) :
    pageBlock env cfg fresh pageNum pagesFetched page (some c) st0 saved
      disk res rec =
      ⟨(processPage env fresh pageNum (some c) page 0 st0 saved disk
          res).res,
       { (processPage env fresh pageNum (some c) page 0 st0 saved disk
            res).st with nextCursor := some c, currentPageBookmarks := none },
       (processPage env fresh pageNum (some c) page 0 st0 saved disk
          res).disk,
       (processPage env fresh pageNum (some c) page 0 st0 saved disk
          res).trace ++
         [Ev.save
            { (processPage env fresh pageNum (some c) page 0 st0 saved disk
                res).st with
              nextCursor := some c, currentPageBookmarks := none }]⟩ := by
  simp only [pageBlock]
  rw [if_neg h3, if_neg hex, if_neg hhp, if_pos hmp]

theorem pageBlock_maxPages_none_eq (env : ExpEnv) (cfg : Config)
    (fresh : Bool) (pageNum pagesFetched : Nat) (page : List Tweet)
    (st0 saved : ExporterState) (disk : List String) (res : ExportResult)
    (rec : ExporterState → ExporterState → List String → ExportResult →
      RunOut)
    (h3 : ¬(page.take 3 ≠ [] ∧ ∀ t ∈ page.take 3, t.id ∈ disk))
    (hex : (processPage env fresh pageNum none page 0 st0 saved disk
      res).exit ≠ PExit.rateLimited)
    (hhp : (processPage env fresh pageNum none page 0 st0 saved disk
      res).res.hitPreviousExport ≠ true)
    (hmp : maxPagesReached cfg pagesFetched = true) :
    pageBlock env cfg fresh pageNum pagesFetched page none st0 saved disk
      res rec =
      ⟨(processPage env fresh pageNum none page 0 st0 saved disk res).res,
       finishRun (processPage env fresh pageNum none page 0 st0 saved disk
          res).saved true,
       (processPage env fresh pageNum none page 0 st0 saved disk res).disk,
       (processPage env fresh pageNum none page 0 st0 saved disk
          res).trace ++
         [Ev.save (finishRun (processPage env fresh pageNum none page 0 st0
            saved disk res).saved true)]⟩ := by
  simp only [pageBlock]
  rw [if_neg h3, if_neg hex, if_neg hhp, if_pos hmp]

theorem pageBlock_advance_eq (env : ExpEnv) (cfg : Config) (fresh : Bool)
    (pageNum pagesFetched : Nat) (page : List Tweet) (c : Nat)
    (st0 saved : ExporterState) (disk : List String) (res : ExportResult)
    (rec : ExporterState → ExporterState → List String → ExportResult →
      RunOut)
    (h3 : ¬(page.take 3 ≠ [] ∧ ∀ t ∈ page.take 3, t.id ∈ disk))
    (hex : (processPage env fresh pageNum (some c) page 0 st0 saved disk
      res).exit ≠ PExit.rateLimited)
    (hhp : (processPage env fresh pageNum (some c) page 0 st0 saved disk
      res).res.hitPreviousExport ≠ true)
    (hmp : maxPagesReached cfg pagesFetched = false) :
    pageBlock env cfg fresh pageNum pagesFetched page (some c) st0 saved
      disk res rec =
      (let pp := processPage env fresh pageNum (some c) page 0 st0 saved
        disk res
       let st2 := { pp.st with nextCursor := some c,
                               currentPageBookmarks := none }
       let r := rec st2 st2 pp.disk pp.res
       { r with trace := pp.trace ++ Ev.save st2 :: r.trace }) := by
  simp only [pageBlock]
  rw [if_neg h3, if_neg hex, if_neg hhp, if_neg (by simp [hmp])]

theorem pageBlock_end_eq (env : ExpEnv) (cfg : Config) (fresh : Bool)
    (pageNum pagesFetched : Nat) (page : List Tweet)
    (st0 saved : ExporterState) (disk : List String) (res : ExportResult)
    (rec : ExporterState → ExporterState → List String → ExportResult →
      RunOut)
    (h3 : ¬(page.take 3 ≠ [] ∧ ∀ t ∈ page.take 3, t.id ∈ disk))
    (hex : (processPage env fresh pageNum none page 0 st0 saved disk
      res).exit ≠ PExit.rateLimited)
    (hhp : (processPage env fresh pageNum none page 0 st0 saved disk
      res).res.hitPreviousExport ≠ true)
    (hmp : maxPagesReached cfg pagesFetched = false) :
    pageBlock env cfg fresh pageNum pagesFetched page none st0 saved disk
      res rec =
      ⟨(processPage env fresh pageNum none page 0 st0 saved disk res).res,
       finishRun (processPage env fresh pageNum none page 0 st0 saved disk
          res).saved true,
       (processPage env fresh pageNum none page 0 st0 saved disk res).disk,
       (processPage env fresh pageNum none page 0 st0 saved disk
          res).trace ++
         [Ev.save (finishRun (processPage env fresh pageNum none page 0 st0
            saved disk res).saved true)]⟩ := by
  simp only [pageBlock]
  rw [if_neg h3, if_neg hex, if_neg hhp, if_neg (by simp [hmp])]

theorem pageBlock_noFetchAfterRL (env : ExpEnv) (cfg : Config) (fresh : Bool)
    (pageNum pagesFetched : Nat) (page : List Tweet) (pageCursor : Option Nat)
    (st0 saved : ExporterState) (disk : List String) (res : ExportResult)
    (rec : ExporterState → ExporterState → List String → ExportResult →
      RunOut)
    (hrec : ∀ a b c d, noFetchAfterRL (rec a b c d).trace) :
    noFetchAfterRL (pageBlock env cfg fresh pageNum pagesFetched page
      pageCursor st0 saved disk res rec).trace := by
  have hsv : noFetchAfterRL [Ev.save (finishRun (processPage env fresh
      pageNum pageCursor page 0 st0 saved disk res).saved false)] :=
    noFetchAfterRL_of_fetchFree (fetchFree_cons (by simp) fetchFree_nil)
  by_cases h3 : page.take 3 ≠ [] ∧ ∀ t ∈ page.take 3, t.id ∈ disk
  · rw [pageBlock_first3_eq env cfg fresh pageNum pagesFetched page
      pageCursor st0 saved disk res rec h3]
    trivial
  · by_cases hex : (processPage env fresh pageNum pageCursor page 0 st0
      saved disk res).exit = PExit.rateLimited
    · rw [pageBlock_rl_eq env cfg fresh pageNum pagesFetched page pageCursor
        st0 saved disk res rec h3 hex]
      exact processPage_noFetchAfterRL _ _ _ _ _ _ _ _ _ _
    · by_cases hhp : (processPage env fresh pageNum pageCursor page 0 st0
        saved disk res).res.hitPreviousExport = true
      · rw [pageBlock_break_eq env cfg fresh pageNum pagesFetched page
          pageCursor st0 saved disk res rec h3 hex hhp]
        exact noFetchAfterRL_append
          (processPage_noRL_of_exit _ _ _ _ _ _ _ _ _ _ hex) hsv
      · cases pageCursor with
        | some c =>
          cases hmp : maxPagesReached cfg pagesFetched with
          | true =>
            rw [pageBlock_maxPages_some_eq env cfg fresh pageNum pagesFetched
              page c st0 saved disk res rec h3 hex hhp hmp]
            exact noFetchAfterRL_append
              (processPage_noRL_of_exit _ _ _ _ _ _ _ _ _ _ hex)
              (noFetchAfterRL_of_fetchFree
                (fetchFree_cons (by simp) fetchFree_nil))
          | false =>
            rw [pageBlock_advance_eq env cfg fresh pageNum pagesFetched page
              c st0 saved disk res rec h3 hex hhp hmp]
            exact noFetchAfterRL_append
              (processPage_noRL_of_exit _ _ _ _ _ _ _ _ _ _ hex)
              (hrec _ _ _ _)
        | none =>
          cases hmp : maxPagesReached cfg pagesFetched with
          | true =>
            rw [pageBlock_maxPages_none_eq env cfg fresh pageNum pagesFetched
              page st0 saved disk res rec h3 hex hhp hmp]
            exact noFetchAfterRL_append
              (processPage_noRL_of_exit _ _ _ _ _ _ _ _ _ _ hex)
              (noFetchAfterRL_of_fetchFree
                (fetchFree_cons (by simp) fetchFree_nil))
          | false =>
            rw [pageBlock_end_eq env cfg fresh pageNum pagesFetched page st0
              saved disk res rec h3 hex hhp hmp]
            exact noFetchAfterRL_append
              (processPage_noRL_of_exit _ _ _ _ _ _ _ _ _ _ hex)
              (noFetchAfterRL_of_fetchFree
                (fetchFree_cons (by simp) fetchFree_nil))

theorem pageBlock_noX (env : ExpEnv) (cfg : Config) (fresh : Bool)
    (pageNum pagesFetched : Nat) (page : List Tweet) (pageCursor : Option Nat)
    (st0 saved : ExporterState) (disk : List String) (res : ExportResult)
    (rec : ExporterState → ExporterState → List String → ExportResult →
      RunOut) (X : String)
    (hst : st0.previousFirstExported = some X)
    (hsv : saved.previousFirstExported = some X)
    (hrec : ∀ a b c d, a.previousFirstExported = some X →
      b.previousFirstExported = some X →
      X ∉ processedIds (rec a b c d).trace) :
    X ∉ processedIds (pageBlock env cfg fresh pageNum pagesFetched page
      pageCursor st0 saved disk res rec).trace := by
  have hb := processPage_boundary_noX env fresh pageNum pageCursor page 0
    st0 saved disk res X hst
  have happ : ∀ s : ExporterState,
      X ∉ processedIds ((processPage env fresh pageNum pageCursor page 0 st0
        saved disk res).trace ++ [Ev.save s]) := by
    intro s hmem
    rw [processedIds_append] at hmem
    rcases List.mem_append.mp hmem with h1 | h1
    · exact hb h1
    · simp [processedIds] at h1
  by_cases h3 : page.take 3 ≠ [] ∧ ∀ t ∈ page.take 3, t.id ∈ disk
  · rw [pageBlock_first3_eq env cfg fresh pageNum pagesFetched page
      pageCursor st0 saved disk res rec h3]
    simp [processedIds]
  · by_cases hex : (processPage env fresh pageNum pageCursor page 0 st0
      saved disk res).exit = PExit.rateLimited
    · rw [pageBlock_rl_eq env cfg fresh pageNum pagesFetched page pageCursor
        st0 saved disk res rec h3 hex]
      exact hb
    · by_cases hhp : (processPage env fresh pageNum pageCursor page 0 st0
        saved disk res).res.hitPreviousExport = true
      · rw [pageBlock_break_eq env cfg fresh pageNum pagesFetched page
          pageCursor st0 saved disk res rec h3 hex hhp]
        exact happ _
      · cases pageCursor with
        | some c =>
          cases hmp : maxPagesReached cfg pagesFetched with
          | true =>
            rw [pageBlock_maxPages_some_eq env cfg fresh pageNum pagesFetched
              page c st0 saved disk res rec h3 hex hhp hmp]
            exact happ _
          | false =>
            rw [pageBlock_advance_eq env cfg fresh pageNum pagesFetched page
              c st0 saved disk res rec h3 hex hhp hmp]
            intro hmem
            have hprev := processPage_prev env fresh pageNum (some c) page 0
              st0 saved disk res (some X) hst hsv
            rw [processedIds_append] at hmem
            rcases List.mem_append.mp hmem with h1 | h1
            · exact hb h1
            · have h2 : X ∈ processedIds (rec
                  { (processPage env fresh pageNum (some c) page 0 st0 saved
                      disk res).st with
                    nextCursor := some c, currentPageBookmarks := none }
                  { (processPage env fresh pageNum (some c) page 0 st0 saved
                      disk res).st with
                    nextCursor := some c, currentPageBookmarks := none }
                  (processPage env fresh pageNum (some c) page 0 st0 saved
                    disk res).disk
                  (processPage env fresh pageNum (some c) page 0 st0 saved
                    disk res).res).trace := by
                simpa [processedIds] using h1
              exact hrec _ _ _ _ (by simpa using hprev.1)
                (by simpa using hprev.1) h2
        | none =>
          cases hmp : maxPagesReached cfg pagesFetched with
          | true =>
            rw [pageBlock_maxPages_none_eq env cfg fresh pageNum pagesFetched
              page st0 saved disk res rec h3 hex hhp hmp]
            exact happ _
          | false =>
            rw [pageBlock_end_eq env cfg fresh pageNum pagesFetched page st0
              saved disk res rec h3 hex hhp hmp]
            exact happ _

theorem pageBlock_fetchFree (env : ExpEnv) (cfg : Config) (fresh : Bool)
    (pageNum pagesFetched : Nat) (page : List Tweet) (pageCursor : Option Nat)
    (st0 saved : ExporterState) (disk : List String) (res : ExportResult)
    (rec : ExporterState → ExporterState → List String → ExportResult →
      RunOut) (X : String)
    (hst : st0.previousFirstExported = some X)
    (hmem : X ∈ page.map Tweet.id) :
    fetchFree (pageBlock env cfg fresh pageNum pagesFetched page pageCursor
      st0 saved disk res rec).trace := by
  have hpf := processPage_fetchFree env fresh pageNum pageCursor page 0 st0
    saved disk res
  have happ : ∀ s : ExporterState,
      fetchFree ((processPage env fresh pageNum pageCursor page 0 st0 saved
        disk res).trace ++ [Ev.save s]) :=
    fun s => fetchFree_append hpf (fetchFree_cons (by simp) fetchFree_nil)
  by_cases h3 : page.take 3 ≠ [] ∧ ∀ t ∈ page.take 3, t.id ∈ disk
  · rw [pageBlock_first3_eq env cfg fresh pageNum pagesFetched page
      pageCursor st0 saved disk res rec h3]
    exact fetchFree_nil
  · by_cases hex : (processPage env fresh pageNum pageCursor page 0 st0
      saved disk res).exit = PExit.rateLimited
    · rw [pageBlock_rl_eq env cfg fresh pageNum pagesFetched page pageCursor
        st0 saved disk res rec h3 hex]
      exact hpf
    · by_cases hhp : (processPage env fresh pageNum pageCursor page 0 st0
        saved disk res).res.hitPreviousExport = true
      · rw [pageBlock_break_eq env cfg fresh pageNum pagesFetched page
          pageCursor st0 saved disk res rec h3 hex hhp]
        exact happ _
      · exfalso
        have hne := processPage_boundary_exit env fresh pageNum pageCursor
          page 0 st0 saved disk res X hst hmem
        rcases hexit : (processPage env fresh pageNum pageCursor page 0 st0
          saved disk res).exit with _ | _ | _
        · exact hne hexit
        · exact hhp (processPage_boundary_exit_hitPrev env fresh pageNum
            pageCursor page 0 st0 saved disk res hexit)
        · exact hex hexit

theorem pageBlock_rl_prev (env : ExpEnv) (cfg : Config) (fresh : Bool)
    (pageNum pagesFetched : Nat) (page : List Tweet) (pageCursor : Option Nat)
    (st0 saved : ExporterState) (disk : List String) (res : ExportResult)
    (rec : ExporterState → ExporterState → List String → ExportResult →
      RunOut) (p : Option String)
    (hst : st0.previousFirstExported = p)
    (hsv : saved.previousFirstExported = p)
    (hres : res.rateLimited = false)
    (hrec : ∀ a b c d, a.previousFirstExported = p →
      b.previousFirstExported = p → d.rateLimited = false →
      (rec a b c d).res.rateLimited = true →
      (rec a b c d).saved.previousFirstExported = p) :
    (pageBlock env cfg fresh pageNum pagesFetched page pageCursor st0 saved
      disk res rec).res.rateLimited = true →
    (pageBlock env cfg fresh pageNum pagesFetched page pageCursor st0 saved
      disk res rec).saved.previousFirstExported = p := by
  have hprev := fun pc => processPage_prev env fresh pageNum pc page 0 st0
    saved disk res p hst hsv
  by_cases h3 : page.take 3 ≠ [] ∧ ∀ t ∈ page.take 3, t.id ∈ disk
  · rw [pageBlock_first3_eq env cfg fresh pageNum pagesFetched page
      pageCursor st0 saved disk res rec h3]
    intro hc
    have hc2 : res.rateLimited = true := hc
    rw [hres] at hc2
    exact Bool.noConfusion hc2
  · by_cases hex : (processPage env fresh pageNum pageCursor page 0 st0
      saved disk res).exit = PExit.rateLimited
    · rw [pageBlock_rl_eq env cfg fresh pageNum pagesFetched page pageCursor
        st0 saved disk res rec h3 hex]
      intro _
      exact (hprev pageCursor).2
    · have hflag := processPage_rl_flag env fresh pageNum pageCursor page 0
        st0 saved disk res hex
      by_cases hhp : (processPage env fresh pageNum pageCursor page 0 st0
        saved disk res).res.hitPreviousExport = true
      · rw [pageBlock_break_eq env cfg fresh pageNum pagesFetched page
          pageCursor st0 saved disk res rec h3 hex hhp]
        intro hc
        rw [hflag, hres] at hc
        simp at hc
      · cases pageCursor with
        | some c =>
          cases hmp : maxPagesReached cfg pagesFetched with
          | true =>
            rw [pageBlock_maxPages_some_eq env cfg fresh pageNum pagesFetched
              page c st0 saved disk res rec h3 hex hhp hmp]
            intro hc
            rw [hflag, hres] at hc
            simp at hc
          | false =>
            rw [pageBlock_advance_eq env cfg fresh pageNum pagesFetched page
              c st0 saved disk res rec h3 hex hhp hmp]
            intro hc
            exact hrec _ _ _ _ (by simpa using (hprev (some c)).1)
              (by simpa using (hprev (some c)).1) (hflag.trans hres) hc
        | none =>
          cases hmp : maxPagesReached cfg pagesFetched with
          | true =>
            rw [pageBlock_maxPages_none_eq env cfg fresh pageNum pagesFetched
              page st0 saved disk res rec h3 hex hhp hmp]
            intro hc
            rw [hflag, hres] at hc
            simp at hc
          | false =>
            rw [pageBlock_end_eq env cfg fresh pageNum pagesFetched page st0
              saved disk res rec h3 hex hhp hmp]
            intro hc
            rw [hflag, hres] at hc
            simp at hc

theorem pageBlock_noFetchX (env : ExpEnv) (cfg : Config) (fresh : Bool)
    (pageNum pagesFetched : Nat) (page : List Tweet) (pageCursor : Option Nat)
    (st0 saved : ExporterState) (disk : List String) (res : ExportResult)
    (rec : ExporterState → ExporterState → List String → ExportResult →
      RunOut) (X : String)
    (hst : st0.previousFirstExported = some X)
    (hsv : saved.previousFirstExported = some X)
    (hrec : ∀ a b c d, a.previousFirstExported = some X →
      b.previousFirstExported = some X →
      noFetchAfterX env X (rec a b c d).trace) :
    noFetchAfterX env X (pageBlock env cfg fresh pageNum pagesFetched page
      pageCursor st0 saved disk res rec).trace := by
  have hpf := processPage_fetchFree env fresh pageNum pageCursor page 0 st0
    saved disk res
  have happ : ∀ s : ExporterState,
      noFetchAfterX env X ((processPage env fresh pageNum pageCursor page 0
        st0 saved disk res).trace ++ [Ev.save s]) :=
    fun s => noFetchAfterX_of_fetchFree env X
      (fetchFree_append hpf (fetchFree_cons (by simp) fetchFree_nil))
  by_cases h3 : page.take 3 ≠ [] ∧ ∀ t ∈ page.take 3, t.id ∈ disk
  · rw [pageBlock_first3_eq env cfg fresh pageNum pagesFetched page
      pageCursor st0 saved disk res rec h3]
    trivial
  · by_cases hex : (processPage env fresh pageNum pageCursor page 0 st0
      saved disk res).exit = PExit.rateLimited
    · rw [pageBlock_rl_eq env cfg fresh pageNum pagesFetched page pageCursor
        st0 saved disk res rec h3 hex]
      exact noFetchAfterX_of_fetchFree env X hpf
    · by_cases hhp : (processPage env fresh pageNum pageCursor page 0 st0
        saved disk res).res.hitPreviousExport = true
      · rw [pageBlock_break_eq env cfg fresh pageNum pagesFetched page
          pageCursor st0 saved disk res rec h3 hex hhp]
        exact happ _
      · cases pageCursor with
        | some c =>
          cases hmp : maxPagesReached cfg pagesFetched with
          | true =>
            rw [pageBlock_maxPages_some_eq env cfg fresh pageNum pagesFetched
              page c st0 saved disk res rec h3 hex hhp hmp]
            exact happ _
          | false =>
            rw [pageBlock_advance_eq env cfg fresh pageNum pagesFetched page
              c st0 saved disk res rec h3 hex hhp hmp]
            have hprev := processPage_prev env fresh pageNum (some c) page 0
              st0 saved disk res (some X) hst hsv
            exact noFetchAfterX_append env X hpf
              (hrec _ _ _ _ (by simpa using hprev.1)
                (by simpa using hprev.1))
        | none =>
          cases hmp : maxPagesReached cfg pagesFetched with
          | true =>
            rw [pageBlock_maxPages_none_eq env cfg fresh pageNum pagesFetched
              page st0 saved disk res rec h3 hex hhp hmp]
            exact happ _
          | false =>
            rw [pageBlock_end_eq env cfg fresh pageNum pagesFetched page st0
              saved disk res rec h3 hex hhp hmp]
            exact happ _

theorem noFetchAfterRL_of_noRL {tr : List Ev}
    (h : ∀ x, Ev.procRL x ∉ tr) : noFetchAfterRL tr := by
  have := noFetchAfterRL_append (a := tr) (b := []) h trivial
  simpa using this

theorem mainLoop_cached_eq (env : ExpEnv) (cfg : Config) (fresh : Bool)
    (fuel pageNum pagesFetched : Nat) (st saved : ExporterState)
    (disk : List String) (res : ExportResult)
    (h : (st.currentPageBookmarks.getD []).isEmpty = false) :
    mainLoop env cfg fresh (fuel + 1) pageNum pagesFetched st saved disk
      res =
      pageBlock env cfg fresh (pageNum + 1) (pagesFetched + 1)
        (st.currentPageBookmarks.getD []) st.nextCursor
        { st with currentPage := some (pageNum + 1) } saved disk res
        (fun a b c d => mainLoop env cfg fresh fuel (pageNum + 1)
          (pagesFetched + 1) a b c d) := by
  simp only [mainLoop]
  rw [if_pos h]

theorem mainLoop_empty_cont_eq (env : ExpEnv) (cfg : Config) (fresh : Bool)
    (fuel pageNum pagesFetched : Nat) (st saved : ExporterState)
    (disk : List String) (res : ExportResult)
    (hcb : (st.currentPageBookmarks.getD []).isEmpty = true)
    (hpage : env.pages.getD (st.nextCursor.getD 0) [] = [])
    (hlt : st.nextCursor.getD 0 + 1 < env.pages.length) :
    mainLoop env cfg fresh (fuel + 1) pageNum pagesFetched st saved disk
      res =
      (let st1 := { st with currentPage := some (pageNum + 1),
                            nextCursor := some (st.nextCursor.getD 0 + 1) }
       let r := mainLoop env cfg fresh fuel (pageNum + 1) (pagesFetched + 1)
         st1 st1 disk res
       { r with trace := Ev.fetch (st.nextCursor.getD 0) :: Ev.save st1 ::
           r.trace }) := by
  simp only [mainLoop]
  rw [if_neg (by simp [hcb]), hpage]
  rw [if_pos (show ([] : List Tweet).isEmpty = true from rfl)]
  rw [if_pos hlt]

theorem mainLoop_empty_break_eq (env : ExpEnv) (cfg : Config) (fresh : Bool)
    (fuel pageNum pagesFetched : Nat) (st saved : ExporterState)
    (disk : List String) (res : ExportResult)
    (hcb : (st.currentPageBookmarks.getD []).isEmpty = true)
    (hpage : env.pages.getD (st.nextCursor.getD 0) [] = [])
    (hge : ¬st.nextCursor.getD 0 + 1 < env.pages.length) :
    mainLoop env cfg fresh (fuel + 1) pageNum pagesFetched st saved disk
      res =
      ⟨res, finishRun saved true, disk,
       [Ev.fetch (st.nextCursor.getD 0),
        Ev.save (finishRun saved true)]⟩ := by
  simp only [mainLoop]
  rw [if_neg (by simp [hcb]), hpage]
  rw [if_pos (show ([] : List Tweet).isEmpty = true from rfl)]
  rw [if_neg hge]

theorem mainLoop_page_eq (env : ExpEnv) (cfg : Config) (fresh : Bool)
    (fuel pageNum pagesFetched : Nat) (st saved : ExporterState)
    (disk : List String) (res : ExportResult)
    (hcb : (st.currentPageBookmarks.getD []).isEmpty = true)
    (hne : (env.pages.getD (st.nextCursor.getD 0) []).isEmpty = false) :
    mainLoop env cfg fresh (fuel + 1) pageNum pagesFetched st saved disk
      res =
      (let r := pageBlock env cfg fresh (pageNum + 1) (pagesFetched + 1)
         (env.pages.getD (st.nextCursor.getD 0) [])
         (if st.nextCursor.getD 0 + 1 < env.pages.length then
            some (st.nextCursor.getD 0 + 1) else none)
         { st with currentPage := some (pageNum + 1) } saved disk res
         (fun a b c d => mainLoop env cfg fresh fuel (pageNum + 1)
           (pagesFetched + 1) a b c d)
       { r with trace := Ev.fetch (st.nextCursor.getD 0) :: r.trace }) := by
  simp only [mainLoop]
  rw [if_neg (by simp [hcb])]
  rw [if_neg (by
    intro hc
    rw [List.isEmpty_iff] at hc
    rw [hc] at hne
    simp at hne)]

theorem mainLoop_noFetchAfterRL (env : ExpEnv) (cfg : Config)
    (fresh : Bool) :
    ∀ (fuel pageNum pagesFetched : Nat) (st saved : ExporterState)
      (disk : List String) (res : ExportResult),
      noFetchAfterRL (mainLoop env cfg fresh fuel pageNum pagesFetched st
        saved disk res).trace := by
  intro fuel
  induction fuel with
  | zero =>
    intro pageNum pagesFetched st saved disk res
    trivial
  | succ fuel ih =>
    intro pageNum pagesFetched st saved disk res
    by_cases hcb : (st.currentPageBookmarks.getD []).isEmpty = false
    · rw [mainLoop_cached_eq env cfg fresh fuel pageNum pagesFetched st saved
        disk res hcb]
      exact pageBlock_noFetchAfterRL _ _ _ _ _ _ _ _ _ _ _ _
        (fun a b c d => ih _ _ a b c d)
    · rw [Bool.not_eq_false] at hcb
      by_cases hpe : env.pages.getD (st.nextCursor.getD 0) [] = []
      · by_cases hlt : st.nextCursor.getD 0 + 1 < env.pages.length
        · rw [mainLoop_empty_cont_eq env cfg fresh fuel pageNum pagesFetched
            st saved disk res hcb hpe hlt]
          show noFetchAfterRL (Ev.fetch _ :: Ev.save _ :: _)
          exact ih _ _ _ _ _ _
        · rw [mainLoop_empty_break_eq env cfg fresh fuel pageNum pagesFetched
            st saved disk res hcb hpe hlt]
          exact noFetchAfterRL_of_noRL (by intro x hx; simp at hx)
      · rw [mainLoop_page_eq env cfg fresh fuel pageNum pagesFetched st saved
          disk res hcb (by
            cases h : (env.pages.getD (st.nextCursor.getD 0) []).isEmpty
            · rfl
            · exact absurd (List.isEmpty_iff.mp h) hpe)]
        show noFetchAfterRL (Ev.fetch _ :: _)
        exact pageBlock_noFetchAfterRL _ _ _ _ _ _ _ _ _ _ _ _
          (fun a b c d => ih _ _ a b c d)

theorem mainLoop_noX (env : ExpEnv) (cfg : Config) (fresh : Bool)
    (X : String) :
    ∀ (fuel pageNum pagesFetched : Nat) (st saved : ExporterState)
      (disk : List String) (res : ExportResult),
      st.previousFirstExported = some X →
      saved.previousFirstExported = some X →
      X ∉ processedIds (mainLoop env cfg fresh fuel pageNum pagesFetched st
        saved disk res).trace := by
  intro fuel
  induction fuel with
  | zero =>
    intro pageNum pagesFetched st saved disk res hst hsv
    simp [mainLoop, processedIds]
  | succ fuel ih =>
    intro pageNum pagesFetched st saved disk res hst hsv
    by_cases hcb : (st.currentPageBookmarks.getD []).isEmpty = false
    · rw [mainLoop_cached_eq env cfg fresh fuel pageNum pagesFetched st saved
        disk res hcb]
      exact pageBlock_noX _ _ _ _ _ _ _ _ _ _ _ _ X hst hsv
        (fun a b c d ha hb => ih _ _ a b c d ha hb)
    · rw [Bool.not_eq_false] at hcb
      by_cases hpe : env.pages.getD (st.nextCursor.getD 0) [] = []
      · by_cases hlt : st.nextCursor.getD 0 + 1 < env.pages.length
        · rw [mainLoop_empty_cont_eq env cfg fresh fuel pageNum pagesFetched
            st saved disk res hcb hpe hlt]
          show X ∉ processedIds (Ev.fetch _ :: Ev.save _ :: _)
          exact ih _ _ _ _ _ _ hst hst
        · rw [mainLoop_empty_break_eq env cfg fresh fuel pageNum pagesFetched
            st saved disk res hcb hpe hlt]
          simp [processedIds]
      · rw [mainLoop_page_eq env cfg fresh fuel pageNum pagesFetched st saved
          disk res hcb (by
            cases h : (env.pages.getD (st.nextCursor.getD 0) []).isEmpty
            · rfl
            · exact absurd (List.isEmpty_iff.mp h) hpe)]
        show X ∉ processedIds (Ev.fetch _ :: _)
        exact pageBlock_noX _ _ _ _ _ _ _ _ _ _ _ _ X hst hsv
          (fun a b c d ha hb => ih _ _ a b c d ha hb)

theorem mainLoop_noFetchX (env : ExpEnv) (cfg : Config) (fresh : Bool)
    (X : String) :
    ∀ (fuel pageNum pagesFetched : Nat) (st saved : ExporterState)
      (disk : List String) (res : ExportResult),
      st.previousFirstExported = some X →
      saved.previousFirstExported = some X →
      noFetchAfterX env X (mainLoop env cfg fresh fuel pageNum pagesFetched
        st saved disk res).trace := by
  intro fuel
  induction fuel with
  | zero =>
    intro pageNum pagesFetched st saved disk res hst hsv
    trivial
  | succ fuel ih =>
    intro pageNum pagesFetched st saved disk res hst hsv
    by_cases hcb : (st.currentPageBookmarks.getD []).isEmpty = false
    · rw [mainLoop_cached_eq env cfg fresh fuel pageNum pagesFetched st saved
        disk res hcb]
      exact pageBlock_noFetchX _ _ _ _ _ _ _ _ _ _ _ _ X hst hsv
        (fun a b c d ha hb => ih _ _ a b c d ha hb)
    · rw [Bool.not_eq_false] at hcb
      by_cases hpe : env.pages.getD (st.nextCursor.getD 0) [] = []
      · by_cases hlt : st.nextCursor.getD 0 + 1 < env.pages.length
        · rw [mainLoop_empty_cont_eq env cfg fresh fuel pageNum pagesFetched
            st saved disk res hcb hpe hlt]
          refine ⟨fun hmem => ?_, ?_⟩
          · rw [hpe] at hmem
            simp at hmem
          · show noFetchAfterX env X (Ev.save _ :: _)
            exact ih _ _ _ _ _ _ hst hst
        · rw [mainLoop_empty_break_eq env cfg fresh fuel pageNum pagesFetched
            st saved disk res hcb hpe hlt]
          refine ⟨fun hmem => ?_, ?_⟩
          · rw [hpe] at hmem
            simp at hmem
          · trivial
      · rw [mainLoop_page_eq env cfg fresh fuel pageNum pagesFetched st saved
          disk res hcb (by
            cases h : (env.pages.getD (st.nextCursor.getD 0) []).isEmpty
            · rfl
            · exact absurd (List.isEmpty_iff.mp h) hpe)]
        by_cases hXp : X ∈ (env.pages.getD (st.nextCursor.getD 0) []).map
          Tweet.id
        · have hff := pageBlock_fetchFree env cfg fresh (pageNum + 1)
            (pagesFetched + 1) (env.pages.getD (st.nextCursor.getD 0) [])
            (if st.nextCursor.getD 0 + 1 < env.pages.length then
              some (st.nextCursor.getD 0 + 1) else none)
            { st with currentPage := some (pageNum + 1) } saved disk res
            (fun a b c d => mainLoop env cfg fresh fuel (pageNum + 1)
              (pagesFetched + 1) a b c d) X hst hXp
          exact ⟨fun _ => hff, noFetchAfterX_of_fetchFree env X hff⟩
        · refine ⟨fun hmem => absurd hmem hXp, ?_⟩
          exact pageBlock_noFetchX _ _ _ _ _ _ _ _ _ _ _ _ X hst hsv
            (fun a b c d ha hb => ih _ _ a b c d ha hb)

theorem mainLoop_rl_prev (env : ExpEnv) (cfg : Config) (fresh : Bool)
    (p : Option String) :
    ∀ (fuel pageNum pagesFetched : Nat) (st saved : ExporterState)
      (disk : List String) (res : ExportResult),
      st.previousFirstExported = p →
      saved.previousFirstExported = p →
      res.rateLimited = false →
      (mainLoop env cfg fresh fuel pageNum pagesFetched st saved disk
        res).res.rateLimited = true →
      (mainLoop env cfg fresh fuel pageNum pagesFetched st saved disk
        res).saved.previousFirstExported = p := by
  intro fuel
  induction fuel with
  | zero =>
    intro pageNum pagesFetched st saved disk res hst hsv hres hc
    rw [show (mainLoop env cfg fresh 0 pageNum pagesFetched st saved disk
      res).res = res from rfl, hres] at hc
    exact Bool.noConfusion hc
  | succ fuel ih =>
    intro pageNum pagesFetched st saved disk res hst hsv hres
    by_cases hcb : (st.currentPageBookmarks.getD []).isEmpty = false
    · rw [mainLoop_cached_eq env cfg fresh fuel pageNum pagesFetched st saved
        disk res hcb]
      exact pageBlock_rl_prev _ _ _ _ _ _ _ _ _ _ _ _ p hst hsv hres
        (fun a b c d ha hb hd => ih _ _ a b c d ha hb hd)
    · rw [Bool.not_eq_false] at hcb
      by_cases hpe : env.pages.getD (st.nextCursor.getD 0) [] = []
      · by_cases hlt : st.nextCursor.getD 0 + 1 < env.pages.length
        · rw [mainLoop_empty_cont_eq env cfg fresh fuel pageNum pagesFetched
            st saved disk res hcb hpe hlt]
          exact ih _ _ _ _ _ _ hst hst hres
        · rw [mainLoop_empty_break_eq env cfg fresh fuel pageNum pagesFetched
            st saved disk res hcb hpe hlt]
          intro hc
          rw [show ((⟨res, finishRun saved true, disk,
            [Ev.fetch (st.nextCursor.getD 0),
             Ev.save (finishRun saved true)]⟩ : RunOut)).res = res from rfl,
            hres] at hc
          exact Bool.noConfusion hc
      · rw [mainLoop_page_eq env cfg fresh fuel pageNum pagesFetched st saved
          disk res hcb (by
            cases h : (env.pages.getD (st.nextCursor.getD 0) []).isEmpty
            · rfl
            · exact absurd (List.isEmpty_iff.mp h) hpe)]
        exact pageBlock_rl_prev _ _ _ _ _ _ _ _ _ _ _ _ p hst hsv hres
          (fun a b c d ha hb hd => ih _ _ a b c d ha hb hd)

theorem mainLoop_allOnDisk (env : ExpEnv) (cfg : Config) (fresh : Bool) :
    ∀ (fuel pageNum pagesFetched : Nat) (st saved : ExporterState)
      (disk : List String) (res : ExportResult),
      st.currentPageBookmarks = none →
      (∀ p ∈ env.pages, ∀ t ∈ p, t.id ∈ disk) →
      (mainLoop env cfg fresh fuel pageNum pagesFetched st saved disk
        res).res.exported = res.exported ∧
      (mainLoop env cfg fresh fuel pageNum pagesFetched st saved disk
        res).res.skipped = res.skipped ∧
      processedIds (mainLoop env cfg fresh fuel pageNum pagesFetched st saved
        disk res).trace = [] := by
  intro fuel
  induction fuel with
  | zero =>
    intro pageNum pagesFetched st saved disk res hcp hdisk
    exact ⟨rfl, rfl, rfl⟩
  | succ fuel ih =>
    intro pageNum pagesFetched st saved disk res hcp hdisk
    have hcb : (st.currentPageBookmarks.getD []).isEmpty = true := by
      rw [hcp]
      rfl
    by_cases hpe : env.pages.getD (st.nextCursor.getD 0) [] = []
    · by_cases hlt : st.nextCursor.getD 0 + 1 < env.pages.length
      · rw [mainLoop_empty_cont_eq env cfg fresh fuel pageNum pagesFetched
          st saved disk res hcb hpe hlt]
        have hres := ih (pageNum + 1) (pagesFetched + 1)
          { st with currentPage := some (pageNum + 1),
                    nextCursor := some (st.nextCursor.getD 0 + 1) }
          { st with currentPage := some (pageNum + 1),
                    nextCursor := some (st.nextCursor.getD 0 + 1) }
          disk res hcp hdisk
        refine ⟨hres.1, hres.2.1, ?_⟩
        show processedIds (Ev.fetch _ :: Ev.save _ :: _) = []
        simpa [processedIds] using hres.2.2
      · rw [mainLoop_empty_break_eq env cfg fresh fuel pageNum pagesFetched
          st saved disk res hcb hpe hlt]
        exact ⟨rfl, rfl, rfl⟩
    · have hne : (env.pages.getD (st.nextCursor.getD 0) []).isEmpty =
          false := by
        cases h : (env.pages.getD (st.nextCursor.getD 0) []).isEmpty
        · rfl
        · exact absurd (List.isEmpty_iff.mp h) hpe
      rw [mainLoop_page_eq env cfg fresh fuel pageNum pagesFetched st saved
        disk res hcb hne]
      have hidx : st.nextCursor.getD 0 < env.pages.length := by
        by_contra hge
        push_neg at hge
        exact hpe (List.getD_eq_default _ _ hge)
      have hpagemem : env.pages.getD (st.nextCursor.getD 0) [] ∈
          env.pages := by
        have := List.getD_eq_getElem env.pages [] hidx
        rw [this]
        exact List.getElem_mem _
      have h3 : (env.pages.getD (st.nextCursor.getD 0) []).take 3 ≠ [] ∧
          ∀ t ∈ (env.pages.getD (st.nextCursor.getD 0) []).take 3,
            t.id ∈ disk := by
        constructor
        · intro hc
          rw [List.take_eq_nil_iff] at hc
          rcases hc with hc | hc
          · exact absurd hc (by norm_num)
          · exact hpe hc
        · intro t ht
          exact hdisk _ hpagemem t (List.mem_of_mem_take ht)
      rw [pageBlock_first3_eq env cfg fresh (pageNum + 1) (pagesFetched + 1)
        (env.pages.getD (st.nextCursor.getD 0) [])
        (if st.nextCursor.getD 0 + 1 < env.pages.length then
          some (st.nextCursor.getD 0 + 1) else none)
        { st with currentPage := some (pageNum + 1) } saved disk res
        (fun a b c d => mainLoop env cfg fresh fuel (pageNum + 1)
          (pagesFetched + 1) a b c d) h3]
      exact ⟨rfl, rfl, rfl⟩

theorem exportBookmarks_eq (env : ExpEnv) (cfg : Config)
    (s₀ : ExporterState) (disk₀ : List String) :
    exportBookmarks env cfg s₀ disk₀ =
      mainLoop env cfg (isFreshRun s₀) (env.pages.length + 1 + 1)
        (s₀.currentPage.getD 0) 0 s₀ s₀ disk₀ {} := rfl

theorem isFresh_iff {α : Type} (now : Int) (e : CacheEntry α) :
    isFresh now e = true ↔ now - e.fetchedAt < 7 * msPerDay := by
  unfold isFresh
  rw [decide_eq_true_eq]
  rw [div_lt_iff₀ (by norm_num [msPerDay] : (0 : ℚ) < ((msPerDay : Int) : ℚ))]
  constructor
  · intro h
    exact_mod_cast h
  · intro h
    exact_mod_cast h

/-!
## The claims
-/

/-- C10: `loadState` returns the empty state `{}` when the checkpoint file
is absent or fails to parse; such an invocation is a fresh run (no cursor,
no cached page) and pagination restarts from the first page — the run's
first event is the fetch of page 0 — instead of the invocation aborting. -/
theorem loadState_missing_fresh :
    loadState FileState.absent = {} ∧
    loadState FileState.corrupt = {} ∧
    isFreshRun (loadState FileState.absent) = true ∧
    isFreshRun (loadState FileState.corrupt) = true ∧
    ∀ (env : ExpEnv) (cfg : Config) (disk₀ : List String),
      (exportBookmarks env cfg (loadState FileState.absent) disk₀).trace.head?
        = some (Ev.fetch 0) := by
  refine ⟨rfl, rfl, rfl, rfl, ?_⟩
  intro env cfg disk₀
  show (mainLoop env cfg true (env.pages.length + 1 + 1) 0 0 {} {} disk₀
    {}).trace.head? = some (Ev.fetch 0)
  rw [mainLoop]
  simp only [Option.getD_none, List.isEmpty_nil]
  split
  · rename_i h
    simp at h
  · split
    · split
      · rfl
      · rfl
    · rfl

/-- C9: the error log is append-only: appending to a well-formed existing
log keeps every stored entry, unchanged and in order, and adds exactly the
new entry at the end. -/
theorem appendError_appendOnly (fs : FileState (List ExportError))
    (es : List ExportError) (e : ExportError) (h : fs = .good es) :
    appendError fs e = .good (es ++ [e]) ∧
    (es ++ [e]).take es.length = es ∧
    (es ++ [e]).length = es.length + 1 ∧
    (es ++ [e]).getLast? = some e := by
  subst h
  refine ⟨rfl, List.take_left es [e], by simp, List.getLast?_concat es⟩

theorem appendError_appendOnly_witness :
    appendError (.good [errA]) errB = .good ([errA] ++ [errB]) ∧
    ([errA] ++ [errB]).take [errA].length = [errA] ∧
    ([errA] ++ [errB]).length = [errA].length + 1 ∧
    ([errA] ++ [errB]).getLast? = some errB :=
  appendError_appendOnly (.good [errA]) [errA] errB rfl

/-- C8: `getMetadataWithCache` returns the cached value without invoking
the fetcher exactly when an entry for the url exists whose age is strictly
below 7 days (the exact-arithmetic reading of `diffMs / msPerDay < 7`);
otherwise it invokes the fetcher and stores the result with the current
fetch time.  In particular an entry fetched 8 days ago is a miss and one
fetched 6 days ago is a hit. -/
theorem metadata_cache_ttl :
    (∀ (α : Type) (cache : List (String × CacheEntry α)) (now : Int)
       (url : String) (fetcher : String → α) (e : CacheEntry α),
       lookupEntry cache url = some e →
       now - e.fetchedAt < 7 * msPerDay →
       getMetadataWithCache cache now url fetcher = (e.metadata, cache, false)) ∧
    (∀ (α : Type) (cache : List (String × CacheEntry α)) (now : Int)
       (url : String) (fetcher : String → α),
       (∀ e, lookupEntry cache url = some e →
         ¬ now - e.fetchedAt < 7 * msPerDay) →
       getMetadataWithCache cache now url fetcher =
         (fetcher url, cacheMetadata cache url (fetcher url) now, true)) ∧
    (getMetadataWithCache cacheSample (8 * msPerDay) "u" (fun _ => 7)).2.2
      = true ∧
    getMetadataWithCache cacheSample (6 * msPerDay) "u" (fun _ => 7)
      = (42, cacheSample, false) := by
  have hHit : ∀ (α : Type) (cache : List (String × CacheEntry α)) (now : Int)
      (url : String) (fetcher : String → α) (e : CacheEntry α),
      lookupEntry cache url = some e →
      now - e.fetchedAt < 7 * msPerDay →
      getMetadataWithCache cache now url fetcher = (e.metadata, cache, false) := by
    intro α cache now url fetcher e hlook hage
    have hf : isFresh now e = true := (isFresh_iff now e).mpr hage
    simp [getMetadataWithCache, getCachedMetadata, hlook, hf]
  have hMiss : ∀ (α : Type) (cache : List (String × CacheEntry α)) (now : Int)
      (url : String) (fetcher : String → α),
      (∀ e, lookupEntry cache url = some e →
        ¬ now - e.fetchedAt < 7 * msPerDay) →
      getMetadataWithCache cache now url fetcher =
        (fetcher url, cacheMetadata cache url (fetcher url) now, true) := by
    intro α cache now url fetcher h
    rcases hlook : lookupEntry cache url with _ | e
    · simp [getMetadataWithCache, getCachedMetadata, hlook]
    · have hf : isFresh now e = false := by
        rw [← Bool.not_eq_true]
        intro hc
        exact h e hlook ((isFresh_iff now e).mp hc)
      simp [getMetadataWithCache, getCachedMetadata, hlook, hf]
  refine ⟨hHit, hMiss, ?_, ?_⟩
  · rw [hMiss Nat cacheSample (8 * msPerDay) "u" (fun _ => 7) ?_]
    intro e hlook
    have he : e = ⟨42, 0⟩ := by
      simpa [lookupEntry, cacheSample] using hlook.symm
    subst he
    simp [msPerDay]
  · exact hHit Nat cacheSample (6 * msPerDay) "u" (fun _ => 7) ⟨42, 0⟩ rfl
      (by norm_num [msPerDay])

theorem metadata_cache_ttl_witness :
    (lookupEntry cacheSample "u" = some ⟨42, 0⟩ ∧
      6 * msPerDay - (0 : Int) < 7 * msPerDay ∧
      getMetadataWithCache cacheSample (6 * msPerDay) "u" (fun _ => 9)
        = (42, cacheSample, false)) ∧
    ((∀ e, lookupEntry cacheSample "u" = some e →
        ¬ 8 * msPerDay - e.fetchedAt < 7 * msPerDay) ∧
      getMetadataWithCache cacheSample (8 * msPerDay) "u" (fun _ => 9)
        = (9, cacheMetadata cacheSample "u" 9 (8 * msPerDay), true)) :=
  ⟨⟨rfl, by norm_num [msPerDay],
    metadata_cache_ttl.1 Nat cacheSample (6 * msPerDay) "u" (fun _ => 9)
      ⟨42, 0⟩ rfl (by norm_num [msPerDay])⟩,
   ⟨by
      intro e hlook
      have he : e = (⟨42, 0⟩ : CacheEntry Nat) := by
        simpa [lookupEntry, cacheSample] using hlook.symm
      subst he
      simp [msPerDay],
    metadata_cache_ttl.2.1 Nat cacheSample (8 * msPerDay) "u" (fun _ => 9)
      (by
        intro e hlook
        have he : e = (⟨42, 0⟩ : CacheEntry Nat) := by
          simpa [lookupEntry, cacheSample] using hlook.symm
        subst he
        simp [msPerDay])⟩⟩

/-- C4: `expandQuotedTweets` returns the post unchanged whenever
`remainingDepth ≤ 1` or it has no quoted reference; the `-1` "unlimited"
flag clamps the depth to 20, and on the synthetic chain of nesting depth 25
the result carries exactly the 20 fully expanded levels `q0 … q19`
(`expectChain 19`), with the 21st level present only as the unexpanded
embedded summary of `q20` and nothing below it. -/
theorem quote_depth_clamp :
    (∀ (g : String → Option QTweet) (t : QTweet) (d : Int),
      d ≤ 1 → expandQuotedTweets g t d = t) ∧
    (∀ (g : String → Option QTweet) (t : QTweet) (d : Int),
      t.quoted = none → expandQuotedTweets g t d = t) ∧
    parseQuoteDepth (-1) = 20 ∧
    chainResult = expectChain 19 ∧
    nthQuoted chainResult 20 = some (qSummary 20) ∧
    qFull 20 ≠ qSummary 20 ∧
    nthQuoted chainResult 21 = none := by
  refine ⟨?_, ?_, by decide, by decide, by decide, by decide, by decide⟩
  · intro g t d hd
    have h : d.toNat = 0 ∨ d.toNat = 1 := by omega
    unfold expandQuotedTweets
    rcases h with h | h <;> rw [h]
    · rfl
    · rfl
  · intro g t d hq
    unfold expandQuotedTweets
    rcases hn : d.toNat with _ | n
    · rfl
    · rcases n with _ | m
      · rfl
      · show expandGo g t (m + 2) = t
        simp [expandGo, hq]

theorem quote_depth_clamp_witness :
    ((-5 : Int) ≤ 1 ∧
      expandQuotedTweets chainGetTweet (qFull 0) (-5) = qFull 0) ∧
    ((QTweet.leaf "x").quoted = none ∧
      expandQuotedTweets chainGetTweet (QTweet.leaf "x") 7 = QTweet.leaf "x") :=
  ⟨⟨by decide, quote_depth_clamp.1 chainGetTweet (qFull 0) (-5) (by decide)⟩,
   ⟨rfl, quote_depth_clamp.2.1 chainGetTweet (QTweet.leaf "x") 7 rfl⟩⟩

/-- C7 (code bug): evaluating `expandThread` of `src/thread.ts` on the
spec's reply-classification scenario (root `r` by alice, continuations
`c1 → c2`, bob's `o1 → r`, carol's `o2 → c2`, ancestor `a` by dave) yields
`continuation = [c1, c2]` but `replies = [o1, o2, a]`: the ancestor `a`,
whose reply target lies outside `{r} ∪ continuation`, is NOT excluded,
because the filter on lines 99-112 of `thread.ts` never checks the reply
target of a non-author candidate. -/
theorem thread_filter_keeps_ancestor :
    expandThread envThread 5 thRoot true = ([thC1, thC2], [thO1, thO2, thA]) ∧
    thA.replyTo = none ∧
    lowerStr thA.author ≠ lowerStr thRoot.author := by
  exact ⟨by decide, rfl, by decide⟩

/-- C2 counterexample: the one-post set `{p1}`.  The first run (empty disk,
empty checkpoint) exports it; running again on the resulting checkpoint and
disk yields `exported = 0` but `skipped = 0`, not `skipped = N = 1`: the
second run stops at the "first 3 bookmarks already exist" pre-check, which
returns before any per-post skip counting. -/
theorem secondRun_skipped_count_cex :
    (exportBookmarks envTwice {} {} []).res.exported = 1 ∧
    (exportBookmarks envTwice {} {} []).disk = ["p1"] ∧
    (exportBookmarks envTwice {}
        (exportBookmarks envTwice {} {} []).saved
        (exportBookmarks envTwice {} {} []).disk).res.exported = 0 ∧
    (exportBookmarks envTwice {}
        (exportBookmarks envTwice {} {} []).saved
        (exportBookmarks envTwice {} {} []).disk).res.skipped ≠ 1 := by
  exact ⟨by decide, by decide, by decide, by decide⟩

/-- C5 counterexample: fresh run over the single page `[p1, p2]` with `p1`
already on disk, `p2` new and processable, and no boundary id set.  The
claim requires the run to skip `p1` and continue with `p2`; the code
instead sets `hitPreviousExport` and stops (lines 641-646 of
`exporter.ts`): `p2` is never processed. -/
theorem skip_stops_run_cex :
    (exportBookmarks envPair {} {} ["p1"]).res.skipped = 1 ∧
    (exportBookmarks envPair {} {} ["p1"]).res.hitPreviousExport = true ∧
    (exportBookmarks envPair {} {} ["p1"]).res.exported = 0 ∧
    processedIds (exportBookmarks envPair {} {} ["p1"]).trace = [] ∧
    envPair.process (tw "p2") = .ok ∧
    (tw "p2").id ∉ (["p1"] : List String) ∧
    ({} : ExporterState).previousFirstExported = none := by
  exact ⟨by decide, by decide, by decide, by decide, by decide, by decide, rfl⟩

/-- C6 counterexample: fresh run over the single page `[p1, p2]` where
processing `p1` fails with a non-rate-limit error and `p2` succeeds.  The
only post actually exported is `p2`, yet `currentRunFirstExported` was set
to `p1` (the first post examined) and is promoted to
`previousFirstExported` at the end of the run. -/
theorem anchor_first_exported_cex :
    okIds (exportBookmarks envErrFirst {} {} []).trace = ["p2"] ∧
    (exportBookmarks envErrFirst {} {} []).res.errors = 1 ∧
    (exportBookmarks envErrFirst {} {} []).saved.previousFirstExported
      = some "p1" ∧
    ("p1" : String) ≠ "p2" := by
  exact ⟨by decide, by decide, by decide, by decide⟩

/-- C2 amended: running `exportBookmarks` again over a set whose posts are
all already on disk (every post of every page), from a fresh checkpoint,
yields `exported = 0` and `skipped = 0` — not `skipped = N` — processing no
post at all; when the first page is nonempty the run ends with
`hitPreviousExport = true` at the "first 3 bookmarks already exist"
pre-check. -/
theorem secondRun_idempotent_amended (env : ExpEnv) (cfg : Config)
    (s₀ : ExporterState) (disk₀ : List String)
    (hfresh : isFreshRun s₀ = true)
    (hdisk : ∀ p ∈ env.pages, ∀ t ∈ p, t.id ∈ disk₀) :
    (exportBookmarks env cfg s₀ disk₀).res.exported = 0 ∧
    (exportBookmarks env cfg s₀ disk₀).res.skipped = 0 ∧
    processedIds (exportBookmarks env cfg s₀ disk₀).trace = [] ∧
    ∀ p₀, env.pages.head? = some p₀ → p₀ ≠ [] →
      (exportBookmarks env cfg s₀ disk₀).res.hitPreviousExport = true := by
  have hfr : s₀.nextCursor.isNone = true ∧
      s₀.currentPageBookmarks.isNone = true := by
    unfold isFreshRun at hfresh
    exact Bool.and_eq_true_iff.mp hfresh
  have hcp : s₀.currentPageBookmarks = none :=
    Option.isNone_iff_eq_none.mp hfr.2
  have hnc : s₀.nextCursor = none := Option.isNone_iff_eq_none.mp hfr.1
  have hall := mainLoop_allOnDisk env cfg (isFreshRun s₀)
    (env.pages.length + 2) (s₀.currentPage.getD 0) 0 s₀ s₀ disk₀ {} hcp hdisk
  refine ⟨hall.1, hall.2.1, hall.2.2, ?_⟩
  intro p₀ hp hne
  have hcb : (s₀.currentPageBookmarks.getD []).isEmpty = true := by
    rw [hcp]
    rfl
  have hpage : env.pages.getD (s₀.nextCursor.getD 0) [] = p₀ := by
    rw [hnc]
    rcases hps : env.pages with _ | ⟨q, tl⟩
    · rw [hps] at hp
      simp at hp
    · rw [hps] at hp
      simp at hp
      rw [hp]
      rfl
  have hne2 : (env.pages.getD (s₀.nextCursor.getD 0) []).isEmpty = false := by
    rw [hpage]
    cases p₀ with
    | nil => exact absurd rfl hne
    | cons a l => rfl
  have hmem : p₀ ∈ env.pages := by
    rcases hps : env.pages with _ | ⟨q, tl⟩
    · rw [hps] at hp
      simp at hp
    · rw [hps] at hp
      simp at hp
      rw [hp]
      exact List.mem_cons_self _ _
  have h3 : (env.pages.getD (s₀.nextCursor.getD 0) []).take 3 ≠ [] ∧
      ∀ t ∈ (env.pages.getD (s₀.nextCursor.getD 0) []).take 3,
        t.id ∈ disk₀ := by
    rw [hpage]
    constructor
    · intro hc
      rw [List.take_eq_nil_iff] at hc
      rcases hc with hc | hc
      · exact absurd hc (by norm_num)
      · exact hne hc
    · intro t ht
      exact hdisk p₀ hmem t (List.mem_of_mem_take ht)
  rw [exportBookmarks_eq env cfg s₀ disk₀]
  rw [mainLoop_page_eq env cfg (isFreshRun s₀) (env.pages.length + 1)
    (s₀.currentPage.getD 0) 0 s₀ s₀ disk₀ {} hcb hne2]
  rw [pageBlock_first3_eq env cfg (isFreshRun s₀) (s₀.currentPage.getD 0 + 1)
    1 (env.pages.getD (s₀.nextCursor.getD 0) [])
    (if s₀.nextCursor.getD 0 + 1 < env.pages.length then
      some (s₀.nextCursor.getD 0 + 1) else none)
    { s₀ with currentPage := some (s₀.currentPage.getD 0 + 1) } s₀ disk₀ {}
    (fun a b c d => mainLoop env cfg (isFreshRun s₀) (env.pages.length + 1)
      (s₀.currentPage.getD 0 + 1) 1 a b c d) h3]

theorem secondRun_idempotent_amended_witness :
    isFreshRun ({} : ExporterState) = true ∧
    (∀ p ∈ envTwice.pages, ∀ t ∈ p, t.id ∈ (["p1"] : List String)) ∧
    (exportBookmarks envTwice {} {} ["p1"]).res.exported = 0 ∧
    (exportBookmarks envTwice {} {} ["p1"]).res.skipped = 0 ∧
    processedIds (exportBookmarks envTwice {} {} ["p1"]).trace = [] ∧
    (exportBookmarks envTwice {} {} ["p1"]).res.hitPreviousExport = true := by
  have h := secondRun_idempotent_amended envTwice {} {} ["p1"] (by decide)
    (by decide)
  exact ⟨by decide, by decide, h.1, h.2.1, h.2.2.1,
    h.2.2.2 [tw "p1"] rfl (by decide)⟩

/-- C3: with `previousFirstExported = X`, the forward scan never processes
the post with id `X` (it is neither exported nor counted as an error), no
page is ever fetched after a fetched page that contains `X`, no fetch at all
happens when the cached page remainder contains `X`, and within any page the
posts processed all lie strictly before the first occurrence of `X`. -/
theorem boundary_stop_correct (env : ExpEnv) (cfg : Config)
    (s₀ : ExporterState) (disk₀ : List String) (X : String)
    (hX : s₀.previousFirstExported = some X) :
    X ∉ processedIds (exportBookmarks env cfg s₀ disk₀).trace ∧
    noFetchAfterX env X (exportBookmarks env cfg s₀ disk₀).trace ∧
    (∀ P, s₀.currentPageBookmarks = some P → X ∈ P.map Tweet.id →
      fetchFree (exportBookmarks env cfg s₀ disk₀).trace) ∧
    (∀ (fresh : Bool) (pageNum : Nat) (pc : Option Nat) (page : List Tweet)
       (i : Nat) (st saved : ExporterState) (disk : List String)
       (res : ExportResult), st.previousFirstExported = some X →
       ∀ y ∈ processedIds (processPage env fresh pageNum pc page i st saved
         disk res).trace,
         y ∈ (page.takeWhile fun t => t.id != X).map Tweet.id) := by
  refine ⟨mainLoop_noX env cfg _ X _ _ _ _ _ _ _ hX hX,
    mainLoop_noFetchX env cfg _ X _ _ _ _ _ _ _ hX hX, ?_, ?_⟩
  · intro P hP hmem
    have hne : P ≠ [] := by
      intro hc
      rw [hc] at hmem
      simp at hmem
    have hcb : (s₀.currentPageBookmarks.getD []).isEmpty = false := by
      rw [hP]
      cases P with
      | nil => exact absurd rfl hne
      | cons a l => rfl
    rw [exportBookmarks_eq env cfg s₀ disk₀]
    rw [mainLoop_cached_eq env cfg (isFreshRun s₀) (env.pages.length + 1)
      (s₀.currentPage.getD 0) 0 s₀ s₀ disk₀ {} hcb]
    refine pageBlock_fetchFree env cfg (isFreshRun s₀) _ _ _ _ _ _ _ _ _ X
      hX ?_
    rw [hP]
    simpa using hmem
  · intro fresh pageNum pc page i st saved disk res hst
    exact processPage_boundary_processed env fresh pageNum pc page i st saved
      disk res X hst

theorem boundary_stop_correct_witness :
    ({ previousFirstExported := some "x" } :
      ExporterState).previousFirstExported = some "x" ∧
    "x" ∉ processedIds (exportBookmarks envBoundary {}
      { previousFirstExported := some "x" } []).trace ∧
    noFetchAfterX envBoundary "x" (exportBookmarks envBoundary {}
      { previousFirstExported := some "x" } []).trace ∧
    (∀ y ∈ processedIds (processPage envBoundary false 2 none
        [tw "x", tw "n"] 0 { previousFirstExported := some "x" }
        { previousFirstExported := some "x" } [] {}).trace,
      y ∈ (([tw "x", tw "n"].takeWhile fun t => t.id != "x").map
        Tweet.id)) := by
  have h := boundary_stop_correct envBoundary {}
    { previousFirstExported := some "x" } [] "x" rfl
  exact ⟨rfl, h.1, h.2.1, h.2.2.2 false 2 none [tw "x", tw "n"] 0
    { previousFirstExported := some "x" }
    { previousFirstExported := some "x" } [] {} rfl⟩

/-- C5 amended: an already-on-disk, non-boundary post makes the per-post
loop increment the skip count and continue with the next post — except on a
fresh run at the first post of the first page, where the run instead stops
with `hitPreviousExport = true` (lines 641-646 of `exporter.ts`). -/
theorem skip_continue_amended :
    (∀ (env : ExpEnv) (fresh : Bool) (pageNum : Nat) (pc : Option Nat)
       (t : Tweet) (rest : List Tweet) (k : Nat)
       (st saved : ExporterState) (disk : List String) (res : ExportResult),
      st.previousFirstExported ≠ some t.id → t.id ∈ disk →
      ¬(fresh = true ∧ k = 0 ∧ pageNum = 1) →
      processPage env fresh pageNum pc (t :: rest) k st saved disk res =
        (let A := anchorStep fresh res k t st saved
         let r := processPage env fresh pageNum pc rest (k + 1) A.1 A.2.1
           disk { res with skipped := res.skipped + 1 }
         { r with trace := A.2.2 ++ Ev.skip t.id :: r.trace })) ∧
    (∀ (env : ExpEnv) (fresh : Bool) (pageNum : Nat) (pc : Option Nat)
       (t : Tweet) (rest : List Tweet) (k : Nat)
       (st saved : ExporterState) (disk : List String) (res : ExportResult),
      st.previousFirstExported ≠ some t.id → t.id ∈ disk →
      fresh = true ∧ k = 0 ∧ pageNum = 1 →
      processPage env fresh pageNum pc (t :: rest) k st saved disk res =
        ⟨PExit.boundary, (anchorStep fresh res k t st saved).1,
         (anchorStep fresh res k t st saved).2.1, disk,
         { res with skipped := res.skipped + 1, hitPreviousExport := true },
         (anchorStep fresh res k t st saved).2.2 ++ [Ev.skip t.id]⟩) :=
  ⟨fun env fresh pageNum pc t rest k st saved disk res hb hd hg =>
    processPage_skip_step env fresh pageNum pc t rest k st saved disk res
      hb hd hg,
   fun env fresh pageNum pc t rest k st saved disk res hb hd hg =>
    processPage_skip_break_step env fresh pageNum pc t rest k st saved disk
      res hb hd hg⟩

theorem skip_continue_amended_witness :
    (({} : ExporterState).previousFirstExported ≠ some "p1" ∧
      ("p1" : String) ∈ (["p1"] : List String) ∧
      processPage envPair true 1 none [tw "p1"] 1 {} {} ["p1"] {} =
        (let A := anchorStep true ({} : ExportResult) 1 (tw "p1") {} {}
         let r := processPage envPair true 1 none [] 2 A.1 A.2.1 ["p1"]
           { ({} : ExportResult) with skipped := 1 }
         { r with trace := A.2.2 ++ Ev.skip "p1" :: r.trace })) ∧
    (processPage envPair true 1 none [tw "p1", tw "p2"] 0 {} {} ["p1"] {} =
      ⟨PExit.boundary,
       (anchorStep true ({} : ExportResult) 0 (tw "p1") {} {}).1,
       (anchorStep true ({} : ExportResult) 0 (tw "p1") {} {}).2.1, ["p1"],
       { ({} : ExportResult) with skipped := 1, hitPreviousExport := true },
       (anchorStep true ({} : ExportResult) 0 (tw "p1") {} {}).2.2 ++
         [Ev.skip "p1"]⟩) := by
  refine ⟨⟨by decide, by decide, ?_⟩, ?_⟩
  · exact skip_continue_amended.1 envPair true 1 none (tw "p1") [] 1 {} {}
      ["p1"] {} (by decide) (by decide) (by decide)
  · exact skip_continue_amended.2 envPair true 1 none (tw "p1") [tw "p2"] 0
      {} {} ["p1"] {} (by decide) (by decide) ⟨rfl, rfl, rfl⟩

/-- C6 amended: (i) `finishRun` promotes `currentRunFirstExported` to
`previousFirstExported` (and clears it) unconditionally, for both values of
`completedFullScan` — i.e. on every loop-exit path, boundary-hit and
end-of-list alike; (ii) on a fresh run, at index 0 of a page while
`exported = skipped = 0`, the anchor is set — and immediately persisted —
to the id of the page's first post, before the boundary and existence
checks decide that post's fate; (iii) resume (non-fresh) runs never assign
the anchor; (iv) a rate-limited early return leaves
`previousFirstExported` unchanged (no promotion). -/
theorem anchor_promotion_amended :
    (∀ (s : ExporterState) (flag : Bool) (a : String),
      s.currentRunFirstExported = some a →
      (finishRun s flag).previousFirstExported = some a ∧
      (finishRun s flag).currentRunFirstExported = none) ∧
    (∀ (env : ExpEnv) (pageNum : Nat) (pc : Option Nat) (t : Tweet)
       (rest : List Tweet) (st saved : ExporterState) (disk : List String)
       (res : ExportResult), res.exported = 0 → res.skipped = 0 →
      (processPage env true pageNum pc (t :: rest) 0 st saved disk
        res).trace.head? =
        some (Ev.save { st with currentRunFirstExported := some t.id })) ∧
    (∀ (env : ExpEnv) (pageNum : Nat) (pc : Option Nat) (page : List Tweet)
       (i : Nat) (st saved : ExporterState) (disk : List String)
       (res : ExportResult),
      saved.currentRunFirstExported = st.currentRunFirstExported →
      (processPage env false pageNum pc page i st saved disk
        res).st.currentRunFirstExported = st.currentRunFirstExported ∧
      (processPage env false pageNum pc page i st saved disk
        res).saved.currentRunFirstExported = st.currentRunFirstExported) ∧
    (∀ (env : ExpEnv) (cfg : Config) (s₀ : ExporterState)
       (disk₀ : List String),
      (exportBookmarks env cfg s₀ disk₀).res.rateLimited = true →
      (exportBookmarks env cfg s₀ disk₀).saved.previousFirstExported =
        s₀.previousFirstExported) := by
  refine ⟨?_, ?_, ?_, ?_⟩
  · intro s flag a h
    unfold finishRun
    rw [h]
    cases flag
    · exact ⟨rfl, rfl⟩
    · exact ⟨rfl, rfl⟩
  · intro env pageNum pc t rest st saved disk res he hs
    exact processPage_anchor_head env pageNum pc t rest st saved disk res
      he hs
  · intro env pageNum pc page i st saved disk res hcs
    exact processPage_notFresh_anchor env pageNum pc page i st saved disk
      res hcs
  · intro env cfg s₀ disk₀ hc
    exact mainLoop_rl_prev env cfg (isFreshRun s₀) s₀.previousFirstExported
      (env.pages.length + 2) (s₀.currentPage.getD 0) 0 s₀ s₀ disk₀ {} rfl
      rfl rfl hc

theorem anchor_promotion_amended_witness :
    (({ currentRunFirstExported := some "a" } :
        ExporterState).currentRunFirstExported = some "a" ∧
      (finishRun { currentRunFirstExported := some "a" }
        false).previousFirstExported = some "a" ∧
      (finishRun { currentRunFirstExported := some "a" }
        false).currentRunFirstExported = none) ∧
    (processPage envPair true 1 none [tw "p1", tw "p2"] 0 {} {} []
        {}).trace.head? =
      some (Ev.save { ({} : ExporterState) with
        currentRunFirstExported := some (tw "p1").id }) ∧
    ((processPage envPair false 1 none [tw "p1"] 0 {} {} []
        {}).st.currentRunFirstExported = none ∧
      (processPage envPair false 1 none [tw "p1"] 0 {} {} []
        {}).saved.currentRunFirstExported = none) ∧
    ((exportBookmarks envRL {} {} []).res.rateLimited = true ∧
      (exportBookmarks envRL {} {} []).saved.previousFirstExported =
        none) := by
  have h1 := anchor_promotion_amended.1
    { currentRunFirstExported := some "a" } false "a" rfl
  have h2 := anchor_promotion_amended.2.1 envPair 1 none (tw "p1") [tw "p2"]
    {} {} [] {} rfl rfl
  have h3 := anchor_promotion_amended.2.2.1 envPair 1 none [tw "p1"] 0 {} {}
    [] {} rfl
  have h4 := anchor_promotion_amended.2.2.2 envRL {} {} [] (by decide)
  exact ⟨⟨rfl, h1.1, h1.2⟩, h2, h3, by decide, h4⟩

theorem pageBlock_allOk_take (env : ExpEnv) (cfg : Config) (fresh : Bool)
    (pageNum pagesFetched : Nat) (page : List Tweet) (pc : Option Nat)
    (st0 saved : ExporterState) (disk : List String) (res : ExportResult)
    (rec : ExporterState → ExporterState → List String → ExportResult →
      RunOut)
    (hd : ∀ t ∈ page, t.id ∉ disk)
    (hnd : (page.map Tweet.id).Nodup)
    (hb : ∀ t ∈ page, st0.previousFirstExported ≠ some t.id)
    (hok : ∀ t ∈ page, env.process t = Outcome.ok)
    (hne : page ≠ [])
    (hres : res.hitPreviousExport = false)
    (hmp : maxPagesReached cfg pagesFetched = false) :
    (processedIds (pageBlock env cfg fresh pageNum pagesFetched page pc st0
      saved disk res rec).trace).take page.length = page.map Tweet.id := by
  have h3 : ¬(page.take 3 ≠ [] ∧ ∀ t ∈ page.take 3, t.id ∈ disk) := by
    intro hc
    cases page with
    | nil => exact absurd rfl hne
    | cons r0 rr =>
      exact hd r0 (List.mem_cons_self _ _)
        (hc.2 r0 (by rw [List.take_succ_cons]; exact List.mem_cons_self _ _))
  have hpp := processPage_allOk env fresh pageNum pc page 0 st0 saved disk
    res hd hnd hb hok
  have hex : (processPage env fresh pageNum pc page 0 st0 saved disk
      res).exit ≠ PExit.rateLimited := by
    rw [hpp.1]
    simp
  have hhp : (processPage env fresh pageNum pc page 0 st0 saved disk
      res).res.hitPreviousExport ≠ true := by
    rw [hpp.2.2.1, hres]
    simp
  cases pc with
  | some c =>
    rw [pageBlock_advance_eq env cfg fresh pageNum pagesFetched page c st0
      saved disk res rec h3 hex hhp hmp]
    show (processedIds ((processPage env fresh pageNum (some c) page 0 st0
      saved disk res).trace ++ Ev.save _ :: _)).take page.length =
      page.map Tweet.id
    rw [processedIds_append, hpp.2.1]
    rw [show page.length = (page.map Tweet.id).length from
      (List.length_map page Tweet.id).symm]
    exact List.take_left _ _
  | none =>
    rw [pageBlock_end_eq env cfg fresh pageNum pagesFetched page st0 saved
      disk res rec h3 hex hhp hmp]
    show (processedIds ((processPage env fresh pageNum none page 0 st0
      saved disk res).trace ++ [Ev.save _])).take page.length =
      page.map Tweet.id
    rw [processedIds_append, hpp.2.1]
    rw [show page.length = (page.map Tweet.id).length from
      (List.length_map page Tweet.id).symm]
    exact List.take_left _ _

/-- C1: (a) a `RateLimitError` raised while processing the post at index
`k` of a page — i.e. the head `t` of the remaining suffix `t :: rest` —
persists a checkpoint whose `currentPageBookmarks` is exactly that suffix
together with the page's next cursor, returns `rateLimited = true`, and
processes no further post; (b) in any run, no page fetch ever follows a
rate-limited post; (c) a subsequent invocation over the persisted remainder
processes exactly those remaining posts, in order, as the first posts it
touches (no post outside the remainder — in particular none of the page's
earlier posts — is processed before them); (d) after each successfully
processed post the persisted remainder is advanced past that post before
the loop continues. -/
theorem rateLimit_checkpoint_correct :
    (∀ (env : ExpEnv) (fresh : Bool) (pageNum : Nat) (pc : Option Nat)
       (t : Tweet) (rest : List Tweet) (k : Nat)
       (st saved : ExporterState) (disk : List String) (res : ExportResult),
      st.previousFirstExported ≠ some t.id → t.id ∉ disk →
      env.process t = Outcome.rateLimited →
      (processPage env fresh pageNum pc (t :: rest) k st saved disk
        res).exit = PExit.rateLimited ∧
      (processPage env fresh pageNum pc (t :: rest) k st saved disk
        res).saved.currentPageBookmarks = some (t :: rest) ∧
      (processPage env fresh pageNum pc (t :: rest) k st saved disk
        res).saved.nextCursor = pc ∧
      (processPage env fresh pageNum pc (t :: rest) k st saved disk
        res).res.rateLimited = true ∧
      processedIds (processPage env fresh pageNum pc (t :: rest) k st saved
        disk res).trace = [t.id]) ∧
    (∀ (env : ExpEnv) (cfg : Config) (s₀ : ExporterState)
       (disk₀ : List String),
      noFetchAfterRL (exportBookmarks env cfg s₀ disk₀).trace) ∧
    (∀ (env : ExpEnv) (cfg : Config) (s₀ : ExporterState)
       (disk₀ : List String) (rem : List Tweet),
      cfg.maxPages = none →
      s₀.currentPageBookmarks = some rem → rem ≠ [] →
      (∀ t ∈ rem, t.id ∉ disk₀) → (rem.map Tweet.id).Nodup →
      (∀ t ∈ rem, s₀.previousFirstExported ≠ some t.id) →
      (∀ t ∈ rem, env.process t = Outcome.ok) →
      (processedIds (exportBookmarks env cfg s₀ disk₀).trace).take
        rem.length = rem.map Tweet.id) ∧
    (∀ (env : ExpEnv) (fresh : Bool) (pageNum : Nat) (pc : Option Nat)
       (t : Tweet) (rest : List Tweet) (k : Nat)
       (st saved : ExporterState) (disk : List String) (res : ExportResult),
      st.previousFirstExported ≠ some t.id → t.id ∉ disk →
      env.process t = Outcome.ok →
      processPage env fresh pageNum pc (t :: rest) k st saved disk res =
        (let A := anchorStep fresh res k t st saved
         let st2 := { A.1 with currentPageBookmarks := some rest }
         let r := processPage env fresh pageNum pc rest (k + 1) st2 st2
           (t.id :: disk) { res with exported := res.exported + 1 }
         { r with trace := A.2.2 ++ Ev.procOk t.id :: Ev.save st2 ::
             r.trace })) := by
  refine ⟨?_, ?_, ?_, ?_⟩
  · intro env fresh pageNum pc t rest k st saved disk res hb hd hrl
    rw [processPage_rateLimit_step env fresh pageNum pc t rest k st saved
      disk res hb hd hrl]
    refine ⟨rfl, rfl, rfl, rfl, ?_⟩
    rw [show ((⟨PExit.rateLimited, _, _, disk, _,
      (anchorStep fresh res k t st saved).2.2 ++ [Ev.procRL t.id,
        Ev.save _]⟩ : PRes)).trace =
      (anchorStep fresh res k t st saved).2.2 ++ [Ev.procRL t.id,
        Ev.save _] from rfl]
    rw [processedIds_append, anchorStep_evs_processedIds]
    rfl
  · intro env cfg s₀ disk₀
    exact mainLoop_noFetchAfterRL env cfg (isFreshRun s₀)
      (env.pages.length + 2) (s₀.currentPage.getD 0) 0 s₀ s₀ disk₀ {}
  · intro env cfg s₀ disk₀ rem hmp hrem hne hd hnd hb hok
    have hcb : (s₀.currentPageBookmarks.getD []).isEmpty = false := by
      rw [hrem]
      cases rem with
      | nil => exact absurd rfl hne
      | cons a l => rfl
    rw [exportBookmarks_eq env cfg s₀ disk₀]
    rw [mainLoop_cached_eq env cfg (isFreshRun s₀) (env.pages.length + 1)
      (s₀.currentPage.getD 0) 0 s₀ s₀ disk₀ {} hcb]
    rw [show s₀.currentPageBookmarks.getD [] = rem by rw [hrem]; rfl]
    exact pageBlock_allOk_take env cfg (isFreshRun s₀)
      (s₀.currentPage.getD 0 + 1) (0 + 1) rem s₀.nextCursor
      { s₀ with currentPage := some (s₀.currentPage.getD 0 + 1) } s₀ disk₀
      {} (fun a b c d => mainLoop env cfg (isFreshRun s₀)
        (env.pages.length + 1) (s₀.currentPage.getD 0 + 1) (0 + 1) a b c d)
      hd hnd hb hok hne rfl (by simp [maxPagesReached, hmp])
  · intro env fresh pageNum pc t rest k st saved disk res hb hd hok
    exact processPage_ok_step env fresh pageNum pc t rest k st saved disk
      res hb hd hok

theorem rateLimit_checkpoint_correct_witness :
    (({} : ExporterState).previousFirstExported ≠ some "b" ∧
      ("b" : String) ∉ (["a"] : List String) ∧
      envRL.process (tw "b") = Outcome.rateLimited ∧
      (processPage envRL true 1 none [tw "b", tw "c"] 1 {} {} ["a"]
        { exported := 1 }).saved.currentPageBookmarks =
        some [tw "b", tw "c"] ∧
      (processPage envRL true 1 none [tw "b", tw "c"] 1 {} {} ["a"]
        { exported := 1 }).res.rateLimited = true ∧
      processedIds (processPage envRL true 1 none [tw "b", tw "c"] 1 {} {}
        ["a"] { exported := 1 }).trace = ["b"]) ∧
    noFetchAfterRL (exportBookmarks envRL {} {} []).trace ∧
    (processedIds (exportBookmarks envResume {} stResume []).trace).take
      [tw "b", tw "c"].length = [tw "b", tw "c"].map Tweet.id ∧
    processPage envRL true 1 (some 9) [tw "a", tw "b"] 0 {} {} [] {} =
      (let A := anchorStep true ({} : ExportResult) 0 (tw "a") {} {}
       let st2 := { A.1 with currentPageBookmarks := some [tw "b"] }
       let r := processPage envRL true 1 (some 9) [tw "b"] 1 st2 st2 ["a"]
         { ({} : ExportResult) with exported := 1 }
       { r with trace := A.2.2 ++ Ev.procOk "a" :: Ev.save st2 ::
           r.trace }) := by
  have ha := rateLimit_checkpoint_correct.1 envRL true 1 none (tw "b")
    [tw "c"] 1 {} {} ["a"] { exported := 1 } (by decide) (by decide)
    (by decide)
  have hb := rateLimit_checkpoint_correct.2.1 envRL {} {} []
  have hc := rateLimit_checkpoint_correct.2.2.1 envResume {} stResume []
    [tw "b", tw "c"] rfl rfl (by decide) (by decide) (by decide) (by decide)
    (by decide)
  have hdd := rateLimit_checkpoint_correct.2.2.2 envRL true 1 (some 9)
    (tw "a") [tw "b"] 0 {} {} [] {} (by decide) (by decide) (by decide)
  exact ⟨⟨by decide, by decide, by decide, ha.2.1, ha.2.2.2.1,
    ha.2.2.2.2⟩, hb, hc, hdd⟩
